import Mathlib

/-!
# Client-Server-Go-Sockets: wire protocol, stream and datagram channels

A shallow embedding of the file-transfer client (`client/tcp.go`, `client/udp.go`) and
server (`server/tcp.go`, `server/udp.go`, `server/utils.go`) together with the properties
of the protocol that are settled against it.

Conventions of the embedding:

* a Go `string` and a Go `[]byte` are both a `List UInt8` (a Go string is a byte sequence,
  and `string(b)` / `[]byte(s)` copy the bytes unchanged);
* Go `int` is `Nat` (64-bit platform, all lengths are non-negative), `uint32(x)` is `x % 2^32`;
* a connection, a datagram socket and the file system are explicit state records that every
  operation takes and returns;
* a Go `error` result is `Option IOError` (`none` is `nil`);
* a loop that need not terminate is run on fuel and reports `none` when the fuel is gone;
* the sizes of the chunk reads are observed through a copy of the reassembly loop that keeps
  one ghost list (`readChunksTrace`), and the package variables that `ReadConfigFile` and
  the handlers share are the record `Globals`.
-/

namespace FileTransfer

/-! ## Bytes, strings and the 32-bit big-endian codec (`encoding/binary`) -/

/-- Byte sequence: the embedding of both `[]byte` and `string`. -/
abbrev Bytes := List UInt8

/-- An ASCII literal as a Go string. -/
def goStr (s : String) : Bytes := s.toList.map (fun c => UInt8.ofNat c.toNat)

/-- Conversion `uint32(x)` of a non-negative `int`. -/
def uint32 (x : Nat) : Nat := x % 2 ^ 32

/-- Function `binary.BigEndian.PutUint32(b, v)` on a fresh 4-byte buffer:
`b[0] = byte(v >> 24); b[1] = byte(v >> 16); b[2] = byte(v >> 8); b[3] = byte(v)`. -/
def PutUint32 (v : Nat) : Bytes :=
  [UInt8.ofNat (v >>> 24), UInt8.ofNat (v >>> 16), UInt8.ofNat (v >>> 8), UInt8.ofNat v]

/-- Function `binary.BigEndian.Uint32(b)`:
`uint32(b[3]) | uint32(b[2])<<8 | uint32(b[1])<<16 | uint32(b[0])<<24`.
Every caller passes a 4-byte buffer. -/
def Uint32 (b : Bytes) : Nat :=
  match b with
  | [b0, b1, b2, b3] => b3.toNat ||| (b2.toNat <<< 8) ||| (b1.toNat <<< 16) ||| (b0.toNat <<< 24)
  | _ => 0

/-- The big-endian layout of a 32-bit length as the specification words it: four bytes,
most significant first. Compared with `PutUint32` in `PutUint32_eq_bigEndian32`. -/
def bigEndian32 (n : Nat) : Bytes :=
  [UInt8.ofNat (n / 2 ^ 24 % 256), UInt8.ofNat (n / 2 ^ 16 % 256),
   UInt8.ofNat (n / 2 ^ 8 % 256), UInt8.ofNat (n % 256)]

/-! ## Messages (`FileMessage`, `MsgSuccess`, `MsgFailure`) -/

/-- The Go array type `[32]byte`. -/
abbrev Hash32 := { h : Bytes // h.length = 32 }

/-- The zero value of `[32]byte`. -/
def Hash32.zero : Hash32 := ⟨List.replicate 32 0, by simp⟩

/-- Filling a zeroed `[32]byte` buffer from the front with the bytes a read produced
(`io.ReadFull(conn, msg.Hash[:])`); a full read delivers exactly 32 bytes. -/
def Hash32.fill (b : Bytes) : Hash32 := ⟨(b ++ List.replicate 32 0).take 32, by simp⟩

/-- Struct `FileMessage` of `utils.go` (the same on client and server). -/
structure FileMessage where
  FileName : Bytes
  Data : Bytes
  Hash : Hash32
  deriving DecidableEq

/-- Status byte of a successful transfer. -/
def MsgSuccess : UInt8 := 1

/-- Status byte of a failed transfer. -/
def MsgFailure : UInt8 := 0

/-- Errors of the transport doubles. `EOF` and `ErrUnexpectedEOF` are the two errors
`io.ReadFull` reports at end of input; `ErrClosed` is use of a closed connection;
`ErrWrite` is a write the transport refuses; `ErrHash` is the error of `CompareHash256`;
`ErrMkdir`, `ErrCreate` and `ErrFileWrite` are the failures of `os.MkdirAll`, `os.Create`
and of writing the created file; `ErrNotSaved` is the client's error for a reply byte other
than 1; `ErrDecode` is a configuration file that is not valid JSON. -/
inductive IOError
  | EOF
  | ErrUnexpectedEOF
  | ErrClosed
  | ErrWrite
  | ErrHash
  | ErrMkdir
  | ErrCreate
  | ErrFileWrite
  | ErrNotSaved
  | ErrDecode
  deriving DecidableEq, Repr

deriving instance DecidableEq for Except

/-! ## Stream transport (`net.Conn`) as an in-memory ordered byte pipe -/

/-- An in-memory `net.Conn`. `incoming` holds the bytes the peer has sent and that were not
read yet, followed by end-of-stream; `written` is the list of buffers handed to `Write`, in
call order; `writeQuota` is the number of writes the transport still accepts (`none`: all
of them); `closed` records a call of `Close`. -/
structure Conn where
  incoming : Bytes
  written : List Bytes
  writeQuota : Option Nat
  closed : Bool
  deriving DecidableEq

/-- The state of the writing side of a connection: what was written, what may still be
written, and whether the connection was closed. -/
def Conn.writeSide (c : Conn) : List Bytes × Option Nat × Bool :=
  (c.written, c.writeQuota, c.closed)

/-- A freshly established connection on which `incoming` is ready to be read. -/
def Conn.fresh (incoming : Bytes) : Conn :=
  { incoming := incoming, written := [], writeQuota := none, closed := false }

/-- All bytes written to the connection, in write order. -/
def Conn.bytesWritten (c : Conn) : Bytes := c.written.flatten

/-- Method `conn.Write(b)`: the whole buffer is accepted, or the call fails. -/
def Conn.Write (c : Conn) (b : Bytes) : Option IOError × Conn :=
  if c.closed then (some IOError.ErrClosed, c)
  else
    match c.writeQuota with
    | none => (none, { c with written := c.written ++ [b] })
    | some 0 => (some IOError.ErrWrite, c)
    | some (k + 1) => (none, { c with written := c.written ++ [b], writeQuota := some k })

/-- Method `conn.Close()`. -/
def Conn.Close (c : Conn) : Conn := { c with closed := true }

/-- The call `io.ReadFull(conn, buf)` with `len(buf) = n` on a stream: exactly `n` bytes are
read, or the call fails (`EOF` when nothing could be read, `ErrUnexpectedEOF` when the
stream ended early). A zero-length buffer is filled without touching the connection. -/
def ReadFull (c : Conn) (n : Nat) : Except IOError Bytes × Conn :=
  if n = 0 then (Except.ok [], c)
  else if c.closed then (Except.error IOError.ErrClosed, c)
  else if c.incoming.length = 0 then (Except.error IOError.EOF, c)
  else if c.incoming.length < n then
    (Except.error IOError.ErrUnexpectedEOF, { c with incoming := [] })
  else (Except.ok (c.incoming.take n), { c with incoming := c.incoming.drop n })

/-! ## Stream channel: `sendTCPMessage` (client) and `readMessage` (server) -/

/-- Function `sendTCPMessage` of `client/tcp.go`: six writes, each checked. -/
def sendTCPMessage (conn : Conn) (msg : FileMessage) : Option IOError × Conn :=
  match conn.Write [0] with
  | (some err, conn) => (some err, conn)
  | (none, conn) =>
    let fileNameLenBuf := PutUint32 (uint32 msg.FileName.length)
    match conn.Write fileNameLenBuf with
    | (some err, conn) => (some err, conn)
    | (none, conn) =>
      match conn.Write msg.FileName with
      | (some err, conn) => (some err, conn)
      | (none, conn) =>
        let dataLenBuf := PutUint32 (uint32 msg.Data.length)
        match conn.Write dataLenBuf with
        | (some err, conn) => (some err, conn)
        | (none, conn) =>
          match conn.Write msg.Data with
          | (some err, conn) => (some err, conn)
          | (none, conn) =>
            match conn.Write msg.Hash.val with
            | (some err, conn) => (some err, conn)
            | (none, conn) => (none, conn)

/-- Function `readMessage` of `server/tcp.go`. The message is returned instead of being
written through the pointer; on an error the caller drops the message. -/
def readMessage (conn : Conn) : Except IOError FileMessage × Conn :=
  match ReadFull conn 1 with
  | (Except.error err, conn) => (Except.error err, conn)
  | (Except.ok _, conn) =>
    match ReadFull conn 4 with
    | (Except.error err, conn) => (Except.error err, conn)
    | (Except.ok fileNameLenBuf, conn) =>
      let fileNameLen := Uint32 fileNameLenBuf
      match ReadFull conn fileNameLen with
      | (Except.error err, conn) => (Except.error err, conn)
      | (Except.ok fileNameBuf, conn) =>
        match ReadFull conn 4 with
        | (Except.error err, conn) => (Except.error err, conn)
        | (Except.ok dataLenBuf, conn) =>
          let dataLen := Uint32 dataLenBuf
          match ReadFull conn dataLen with
          | (Except.error err, conn) => (Except.error err, conn)
          | (Except.ok data, conn) =>
            match ReadFull conn 32 with
            | (Except.error err, conn) => (Except.error err, conn)
            | (Except.ok hashBuf, conn) =>
              (Except.ok { FileName := fileNameBuf, Data := data, Hash := Hash32.fill hashBuf },
                conn)


/-! ## Datagram transport (`*net.UDPConn`) as an in-memory datagram queue -/

/-- Struct `net.UDPAddr`. -/
structure UDPAddr where
  IP : Bytes
  Port : Nat
  deriving DecidableEq

/-- One datagram: its payload and the address of the other end (the source for a received
datagram, the destination for a sent one). -/
structure Datagram where
  addr : UDPAddr
  payload : Bytes
  deriving DecidableEq

/-- An in-memory `*net.UDPConn`. `inbox` is the queue of datagrams that arrived at the
socket, oldest first; `outbox` is the list of datagrams sent, oldest first; `raddr` is the
peer of a connected socket (`net.DialUDP`); `writeQuota` is as for `Conn`. -/
structure UDPConn where
  laddr : UDPAddr
  raddr : UDPAddr
  inbox : List Datagram
  outbox : List Datagram
  writeQuota : Option Nat
  deriving DecidableEq

/-- Method `conn.Write(b)` of a connected UDP socket: one call sends one datagram. -/
def UDPConn.Write (c : UDPConn) (b : Bytes) : Option IOError × UDPConn :=
  match c.writeQuota with
  | none => (none, { c with outbox := c.outbox ++ [⟨c.raddr, b⟩] })
  | some 0 => (some IOError.ErrWrite, c)
  | some (k + 1) => (none, { c with outbox := c.outbox ++ [⟨c.raddr, b⟩], writeQuota := some k })

/-- Method `conn.WriteToUDP(b, addr)`: one datagram to `addr`. -/
def UDPConn.WriteToUDP (c : UDPConn) (b : Bytes) (addr : UDPAddr) : Option IOError × UDPConn :=
  match c.writeQuota with
  | none => (none, { c with outbox := c.outbox ++ [⟨addr, b⟩] })
  | some 0 => (some IOError.ErrWrite, c)
  | some (k + 1) => (none, { c with outbox := c.outbox ++ [⟨addr, b⟩], writeQuota := some k })

/-- Method `conn.ReadFromUDP(buf)` with `len(buf) = n`: takes ONE datagram off the queue,
copies at most `n` of its bytes and drops the bytes that do not fit; also returns the
source address. With nothing queued the in-memory transport reports `EOF` (a real socket
would block). -/
def UDPConn.ReadFromUDP (c : UDPConn) (n : Nat) :
    Except IOError (Bytes × UDPAddr) × UDPConn :=
  match c.inbox with
  | [] => (Except.error IOError.EOF, c)
  | d :: q => (Except.ok (d.payload.take n, d.addr), { c with inbox := q })

/-- The loop of `io.ReadAtLeast` over a datagram socket,
`for n < min && err == nil { nn, err = r.Read(buf[n:]); n += nn }`:
`need` bytes are still missing, `buf` holds the bytes read so far. Every `Read` takes one
datagram off the queue and keeps at most `need` of its bytes. With the queue exhausted the
in-memory transport reports `EOF` or `ErrUnexpectedEOF`, which stands for a read that is not
served: a real socket would block there until a datagram arrives, a deadline passes or the
socket is closed. -/
def readFullLoop : List Datagram → Nat → Bytes → Except IOError Bytes × List Datagram
  | q, 0, buf => (Except.ok buf, q)
  | [], _ + 1, buf =>
    (Except.error (if buf.length = 0 then IOError.EOF else IOError.ErrUnexpectedEOF), [])
  | d :: q, need + 1, buf =>
    readFullLoop q (need + 1 - (d.payload.take (need + 1)).length)
      (buf ++ d.payload.take (need + 1))

/-- The call `io.ReadFull(conn, buf)` with `len(buf) = n` on a datagram socket. -/
def ReadFullUDP (c : UDPConn) (n : Nat) : Except IOError Bytes × UDPConn :=
  match readFullLoop c.inbox n [] with
  | (r, q) => (r, { c with inbox := q })

/-- The datagrams `sent` by a socket at `src`, as they are queued at the receiving socket
when every one of them is delivered, completely and in order. -/
def deliver (src : UDPAddr) (sent : List Datagram) : List Datagram :=
  sent.map (fun d => ⟨src, d.payload⟩)

/-! ## Datagram channel: `sendUDPMessage` (client) and `readUDPMessage` (server) -/

/-- Go slice expression `b[i:j]`. -/
def slice (b : Bytes) (i j : Nat) : Bytes := (b.drop i).take (j - i)

/-- The chunk loop of `sendUDPMessage`,
`for i := 0; i < dataLen; i += chunkSize { ... conn.Write(msg.Data[i:end]) ... }`,
from index `i` on. The result is `none` when the fuel runs out before the loop ends. -/
def sendChunks (chunkSize : Nat) (data : Bytes) :
    Nat → Nat → UDPConn → Option (Option IOError × UDPConn)
  | 0, i, conn => if i < data.length then none else some (none, conn)
  | fuel + 1, i, conn =>
    if i < data.length then
      let end0 := i + chunkSize
      let endIdx := if end0 > data.length then data.length else end0
      match conn.Write (slice data i endIdx) with
      | (some err, conn) => some (some err, conn)
      | (none, conn) => sendChunks chunkSize data fuel (i + chunkSize) conn
    else some (none, conn)

/-- Function `sendUDPMessage` of `client/udp.go`; the chunk size is the local constant
1024. The loop advances by 1024 bytes per round, so `len(msg.Data)` rounds of fuel are
always enough (`sendUDPMessage_terminates`). -/
def sendUDPMessage (conn : UDPConn) (msg : FileMessage) : Option (Option IOError × UDPConn) :=
  match conn.Write [0] with
  | (some err, conn) => some (some err, conn)
  | (none, conn) =>
    let fileNameLenBuf := PutUint32 (uint32 msg.FileName.length)
    match conn.Write fileNameLenBuf with
    | (some err, conn) => some (some err, conn)
    | (none, conn) =>
      match conn.Write msg.FileName with
      | (some err, conn) => some (some err, conn)
      | (none, conn) =>
        let totalSizeBuf := PutUint32 (uint32 msg.Data.length)
        match conn.Write totalSizeBuf with
        | (some err, conn) => some (some err, conn)
        | (none, conn) =>
          let chunkSize := 1024
          let dataLen := msg.Data.length
          match sendChunks chunkSize msg.Data dataLen 0 conn with
          | none => none
          | some (some err, conn) => some (some err, conn)
          | some (none, conn) =>
            match conn.Write msg.Hash.val with
            | (some err, conn) => some (some err, conn)
            | (none, conn) => some (none, conn)

/-- The reassembly loop of `readUDPMessage`, `for receivedDataSize < totalSize { ... }`.
Returns the error or the reassembled bytes, `receivedDataSize`, and the socket; `none`
when the fuel runs out before the loop ends. -/
def readChunks (chunkSize totalSize : Nat) :
    Nat → UDPConn → Bytes → Nat → Option (Except IOError Bytes × Nat × UDPConn)
  | 0, conn, receivedData, receivedDataSize =>
    if receivedDataSize < totalSize then none
    else some (Except.ok receivedData, receivedDataSize, conn)
  | fuel + 1, conn, receivedData, receivedDataSize =>
    if receivedDataSize < totalSize then
      let remainingSize := totalSize - receivedDataSize
      let readSize := if remainingSize < chunkSize then remainingSize else chunkSize
      match ReadFullUDP conn readSize with
      | (Except.error err, conn) => some (Except.error err, receivedDataSize, conn)
      | (Except.ok dataBuf, conn) =>
        readChunks chunkSize totalSize fuel conn (receivedData ++ dataBuf)
          (receivedDataSize + dataBuf.length)
    else some (Except.ok receivedData, receivedDataSize, conn)

/-- The three results of `readUDPMessage`: the byte count, the peer address (`none` is
`nil`) and the error; when the error is `nil` the decoded message stands in its place. -/
structure UDPRead where
  n : Nat
  addr : Option UDPAddr
  msg : Except IOError FileMessage
  deriving DecidableEq

/-- Function `readUDPMessage` of `server/udp.go`; `chunkSize` is the value of the package
variable of that name. Every successful round of the loop reads at least one byte when
`chunkSize > 0`, so `totalSize` rounds of fuel are enough; with `chunkSize = 0` and a
non-empty payload the Go loop never ends and the result is `none`. -/
def readUDPMessage (chunkSize : Nat) (conn : UDPConn) : Option (UDPRead × UDPConn) :=
  match conn.ReadFromUDP 1 with
  | (Except.error err, conn) => some (⟨0, none, Except.error err⟩, conn)
  | (Except.ok (_, addr), conn) =>
    match ReadFullUDP conn 4 with
    | (Except.error err, conn) => some (⟨0, none, Except.error err⟩, conn)
    | (Except.ok fileNameLenBuf, conn) =>
      let fileNameLen := Uint32 fileNameLenBuf
      match ReadFullUDP conn fileNameLen with
      | (Except.error err, conn) => some (⟨0, none, Except.error err⟩, conn)
      | (Except.ok fileNameBuf, conn) =>
        match ReadFullUDP conn 4 with
        | (Except.error err, conn) => some (⟨0, none, Except.error err⟩, conn)
        | (Except.ok totalSizeBuf, conn) =>
          let totalSize := Uint32 totalSizeBuf
          match readChunks chunkSize totalSize totalSize conn [] 0 with
          | none => none
          | some (Except.error err, receivedDataSize, conn) =>
            some (⟨receivedDataSize, none, Except.error err⟩, conn)
          | some (Except.ok receivedData, receivedDataSize, conn) =>
            match ReadFullUDP conn 32 with
            | (Except.error err, conn) =>
              some (⟨receivedDataSize, none, Except.error err⟩, conn)
            | (Except.ok hashBuf, conn) =>
              some (⟨receivedDataSize, some addr,
                Except.ok { FileName := fileNameBuf, Data := receivedData,
                            Hash := Hash32.fill hashBuf }⟩, conn)

/-- The payload cut into consecutive pieces of `c` bytes, the last one shorter when `c` does
not divide the length: the closed form of what the chunk loop of `sendUDPMessage` emits
(`sendChunks_accepting`). -/
def chunksOf (c : Nat) (xs : Bytes) : List Bytes :=
  if 0 < c ∧ xs ≠ [] then xs.take c :: chunksOf c (xs.drop c) else []
termination_by xs.length
decreasing_by
  rename_i h
  simp only [List.length_drop]
  exact Nat.sub_lt (List.length_pos.mpr h.2) h.1


/-- A connected client socket as `net.DialUDP` returns it. -/
def UDPConn.dial (laddr raddr : UDPAddr) : UDPConn :=
  { laddr := laddr, raddr := raddr, inbox := [], outbox := [], writeQuota := none }

/-- A listening server socket as `net.ListenUDP` returns it, with `inbox` already queued. -/
def UDPConn.listen (laddr : UDPAddr) (inbox : List Datagram) : UDPConn :=
  { laddr := laddr, raddr := ⟨[], 0⟩, inbox := inbox, outbox := [], writeQuota := none }

/-- Address of the client in the worked examples. -/
def exampleClient : UDPAddr := ⟨[127, 0, 0, 1], 40000⟩

/-- Address of the server in the worked examples (`localhost:8000`). -/
def exampleServer : UDPAddr := ⟨[127, 0, 0, 1], 8000⟩

/-! ## Paths (`path/filepath` on a Unix system) -/

/-- The path separator, the byte of `/`. -/
def Separator : UInt8 := 47

/-- The byte of `.`. -/
def Dot : UInt8 := 46

/-- Backward scan of `filepath.Ext`,
`for i := len(path) - 1; i >= 0 && !os.IsPathSeparator(path[i]); i-- { if path[i] == '.' { return path[i:] } }`,
over the reversed path; `suffix` holds the bytes already passed, in path order. -/
def extScan : Bytes → Bytes → Bytes
  | [], _ => []
  | b :: before, suffix =>
    if b = Separator then []
    else if b = Dot then b :: suffix
    else extScan before (b :: suffix)

/-- Function `filepath.Ext(path)`: the suffix beginning at the final dot in the final element of
`path`; empty if there is no dot. -/
def Ext (path : Bytes) : Bytes := extScan path.reverse []

/-- The elements of a path between separators (empty elements included). -/
def splitSep : Bytes → List Bytes
  | [] => [[]]
  | b :: rest =>
    if b = Separator then [] :: splitSep rest
    else
      match splitSep rest with
      | [] => [[b]]
      | e :: es => (b :: e) :: es

/-- One element of the path seen by `filepath.Clean`; `out` is the stack of elements kept so
far, the last one first. Empty elements and `.` are dropped; `..` removes the element before
it, is dropped at the root of a rooted path, and is kept at the start of a relative one. -/
def cleanStep (rooted : Bool) (out : List Bytes) (elem : Bytes) : List Bytes :=
  if elem = [] then out
  else if elem = [Dot] then out
  else if elem = [Dot, Dot] then
    match out with
    | [] => if rooted then [] else [elem]
    | top :: below =>
      if top = [Dot, Dot] then (if rooted then out else elem :: out) else below
  else elem :: out

/-- Function `filepath.Clean(path)`: the shortest path equivalent to `path` by purely lexical
processing; the empty result is `.`. -/
def Clean (path : Bytes) : Bytes :=
  if path = [] then [Dot]
  else
    let rooted := path.head? = some Separator
    let out := (splitSep path).foldl (cleanStep rooted) []
    let body := List.intercalate [Separator] out.reverse
    if rooted then Separator :: body
    else if body = [] then [Dot]
    else body

/-- Function `filepath.Join(a, b)`: the elements from the first non-empty one on are joined with the
separator and the result is cleaned; all elements empty gives the empty string. -/
def Join (a b : Bytes) : Bytes :=
  if a ≠ [] then Clean (a ++ [Separator] ++ b)
  else if b ≠ [] then Clean b
  else []

/-! ## Server configuration and classification (`server/utils.go`) -/

/-- Struct `ConnConfig` of `server/utils.go`. -/
structure ConnConfig where
  Host : Bytes
  TcpPort : Nat
  UdpPort : Nat
  ChunkSize : Nat
  ImagePath : Bytes
  AudioPath : Bytes
  VideoPath : Bytes
  TextPath : Bytes
  ImageExtensions : List Bytes
  AudioExtensions : List Bytes
  VideoExtensions : List Bytes
  TextExtensions : List Bytes
  deriving DecidableEq

/-- The initial value of the package variable `GlobalConfig`. -/
def GlobalConfig : ConnConfig :=
  { Host := goStr "localhost"
    TcpPort := 8080
    UdpPort := 8000
    ChunkSize := 1024
    ImagePath := goStr "Multimedia/Images"
    AudioPath := goStr "Multimedia/Audios"
    VideoPath := goStr "Multimedia/Videos"
    TextPath := goStr "Multimedia/Texts"
    ImageExtensions := [goStr ".jpg", goStr ".jpeg", goStr ".png"]
    AudioExtensions := [goStr ".mp3", goStr ".wav", goStr ".mid"]
    VideoExtensions := [goStr ".mp4", goStr ".avi", goStr ".flv"]
    TextExtensions := [goStr ".txt"] }

/-- The initial value of the package variable `chunkSize` of `server/udp.go`,
`var chunkSize int = GlobalConfig.ChunkSize`. -/
def chunkSize : Nat := GlobalConfig.ChunkSize

/-- Function `contains`: the first element of `array` equal to `value`, or the empty
string when there is none. -/
def contains (value : Bytes) (array : List Bytes) : Bytes :=
  match array with
  | [] => []
  | v :: rest => if value = v then v else contains value rest

/-- Function `GetFileType`; `cfg` is the value of `GlobalConfig`. The `switch ext` takes
the first `case` whose expression equals `ext`. -/
def GetFileType (cfg : ConnConfig) (fileName : Bytes) : Bytes × Bytes × Bool :=
  let ext := Ext fileName
  if ext = contains ext cfg.ImageExtensions then (ext, cfg.ImagePath, true)
  else if ext = contains ext cfg.AudioExtensions then (ext, cfg.AudioPath, true)
  else if ext = contains ext cfg.VideoExtensions then (ext, cfg.VideoPath, true)
  else if ext = contains ext cfg.TextExtensions then (ext, cfg.TextPath, true)
  else (ext, [], false)

/-- Function `CompareHash256`. -/
def CompareHash256 (hash1 hash2 : Hash32) : Option IOError :=
  if hash1 ≠ hash2 then some IOError.ErrHash else none

/-! ## File system -/

/-- The part of the file system the server touches. `dirs` are the directories made by
`os.MkdirAll`, `files` maps a path to its content (one entry per path), `logs` are the
paths reported by `WriteLog`; the three `fail...` lists name the paths on which
`os.MkdirAll`, `os.Create` and the write of the created file fail. -/
structure FS where
  dirs : List Bytes
  files : List (Bytes × Bytes)
  logs : List Bytes
  failMkdir : List Bytes
  failCreate : List Bytes
  failFileWrite : List Bytes
  deriving DecidableEq

/-- A file system with nothing stored on which every operation succeeds. -/
def FS.empty : FS :=
  { dirs := [], files := [], logs := [], failMkdir := [], failCreate := [],
    failFileWrite := [] }

/-- Content of the file at `path`, if there is one. -/
def FS.read (fs : FS) (path : Bytes) : Option Bytes :=
  (fs.files.find? (fun f => f.1 = path)).map (fun f => f.2)

/-- The call `os.MkdirAll(dir, os.ModePerm)`; an existing directory is left alone. -/
def MkdirAll (fs : FS) (dir : Bytes) : Option IOError × FS :=
  if dir ∈ fs.failMkdir then (some IOError.ErrMkdir, fs)
  else if dir ∈ fs.dirs then (none, fs)
  else (none, { fs with dirs := fs.dirs ++ [dir] })

/-- Function `CreateFile`: `os.Create` makes the file or truncates it, then the payload is
written to it. -/
def CreateFile (fs : FS) (outPath : Bytes) (fileMsg : FileMessage) : Option IOError × FS :=
  if outPath ∈ fs.failCreate then (some IOError.ErrCreate, fs)
  else
    let others := fs.files.filter (fun f => f.1 ≠ outPath)
    if outPath ∈ fs.failFileWrite then
      (some IOError.ErrFileWrite, { fs with files := (outPath, []) :: others })
    else (none, { fs with files := (outPath, fileMsg.Data) :: others })

/-- Function `WriteLog`: one log line for the stored path (the time stamp is left out). -/
def WriteLog (fs : FS) (filePath : Bytes) : FS := { fs with logs := fs.logs ++ [filePath] }

/-! ## SHA-256 (`crypto/sha256`, FIPS 180-4) -/

/-- Rotation of a 32-bit word to the right. -/
def rotr32 (x n : Nat) : Nat := ((x >>> n) ||| (x <<< (32 - n))) % 2 ^ 32

/-- The round constants of SHA-256: the first 32 bits of the fractional parts of the cube
roots of the first 64 primes, in decimal. -/
def sha256K : List Nat :=
  [1116352408, 1899447441, 3049323471, 3921009573, 961987163, 1508970993,
   2453635748, 2870763221, 3624381080, 310598401, 607225278, 1426881987,
   1925078388, 2162078206, 2614888103, 3248222580, 3835390401, 4022224774,
   264347078, 604807628, 770255983, 1249150122, 1555081692, 1996064986,
   2554220882, 2821834349, 2952996808, 3210313671, 3336571891, 3584528711,
   113926993, 338241895, 666307205, 773529912, 1294757372, 1396182291,
   1695183700, 1986661051, 2177026350, 2456956037, 2730485921, 2820302411,
   3259730800, 3345764771, 3516065817, 3600352804, 4094571909, 275423344,
   430227734, 506948616, 659060556, 883997877, 958139571, 1322822218,
   1537002063, 1747873779, 1955562222, 2024104815, 2227730452, 2361852424,
   2428436474, 2756734187, 3204031479, 3329325298]

/-- The eight working words of SHA-256. -/
structure Sha256State where
  a : Nat
  b : Nat
  c : Nat
  d : Nat
  e : Nat
  f : Nat
  g : Nat
  h : Nat

/-- The initial hash value of SHA-256: the first 32 bits of the fractional parts of the
square roots of the first 8 primes, in decimal. -/
def sha256Init : Sha256State :=
  ⟨1779033703, 3144134277, 1013904242, 2773480762,
   1359893119, 2600822924, 528734635, 1541459225⟩

/-- Padding: the message, the byte `0x80`, zero bytes up to 56 modulo 64, and the bit length
as a 64-bit big-endian number. -/
def sha256Pad (msg : Bytes) : List Nat :=
  let bits := 8 * msg.length % 2 ^ 64
  msg.map UInt8.toNat ++ [128] ++ List.replicate ((119 - msg.length % 64) % 64) 0 ++
    (List.range 8).map (fun i => bits >>> (8 * (7 - i)) % 256)

/-- The 64 words of the message schedule of one 64-byte block. -/
def sha256Schedule (block : List Nat) : List Nat :=
  let w0 := (List.range 16).map (fun i =>
    block.getD (4 * i) 0 * 2 ^ 24 + block.getD (4 * i + 1) 0 * 2 ^ 16 +
      block.getD (4 * i + 2) 0 * 2 ^ 8 + block.getD (4 * i + 3) 0)
  (List.range 48).foldl (fun w j =>
    let i := j + 16
    let w15 := w.getD (i - 15) 0
    let w2 := w.getD (i - 2) 0
    let s0 := rotr32 w15 7 ^^^ rotr32 w15 18 ^^^ (w15 >>> 3)
    let s1 := rotr32 w2 17 ^^^ rotr32 w2 19 ^^^ (w2 >>> 10)
    w ++ [(w.getD (i - 16) 0 + s0 + w.getD (i - 7) 0 + s1) % 2 ^ 32]) w0

/-- One round of the compression function. -/
def sha256Round (s : Sha256State) (k w : Nat) : Sha256State :=
  let S1 := rotr32 s.e 6 ^^^ rotr32 s.e 11 ^^^ rotr32 s.e 25
  let ch := (s.e &&& s.f) ^^^ ((s.e ^^^ (2 ^ 32 - 1)) &&& s.g)
  let t1 := (s.h + S1 + ch + k + w) % 2 ^ 32
  let S0 := rotr32 s.a 2 ^^^ rotr32 s.a 13 ^^^ rotr32 s.a 22
  let maj := (s.a &&& s.b) ^^^ (s.a &&& s.c) ^^^ (s.b &&& s.c)
  let t2 := (S0 + maj) % 2 ^ 32
  ⟨(t1 + t2) % 2 ^ 32, s.a, s.b, s.c, (s.d + t1) % 2 ^ 32, s.e, s.f, s.g⟩

/-- The compression function on one 64-byte block. -/
def sha256Block (hs : Sha256State) (block : List Nat) : Sha256State :=
  let w := sha256Schedule block
  let s := (List.range 64).foldl (fun s i => sha256Round s (sha256K.getD i 0) (w.getD i 0)) hs
  ⟨(hs.a + s.a) % 2 ^ 32, (hs.b + s.b) % 2 ^ 32, (hs.c + s.c) % 2 ^ 32, (hs.d + s.d) % 2 ^ 32,
   (hs.e + s.e) % 2 ^ 32, (hs.f + s.f) % 2 ^ 32, (hs.g + s.g) % 2 ^ 32, (hs.h + s.h) % 2 ^ 32⟩

/-- Function `sha256.Sum256(data)`: the SHA-256 digest of `data`. -/
def Sum256 (data : Bytes) : Hash32 :=
  let padded := sha256Pad data
  let s := (List.range (padded.length / 64)).foldl
    (fun hs j => sha256Block hs ((padded.drop (64 * j)).take 64)) sha256Init
  ⟨PutUint32 s.a ++ PutUint32 s.b ++ PutUint32 s.c ++ PutUint32 s.d ++ PutUint32 s.e ++
    PutUint32 s.f ++ PutUint32 s.g ++ PutUint32 s.h, by simp [PutUint32]⟩

/-! ## Server handlers -/

/-- Function `handleTCPClient` of `server/tcp.go`; `cfg` is the value of `GlobalConfig`. -/
def handleTCPClient (cfg : ConnConfig) (conn : Conn) (fs : FS) : UInt8 × Conn × FS :=
  match readMessage conn with
  | (Except.error _, conn) => (MsgFailure, conn, fs)
  | (Except.ok fileMsg, conn) =>
    match GetFileType cfg fileMsg.FileName with
    | (fileType, filePath, valid) =>
      if !valid then (MsgFailure, conn, fs)
      else
        let dir := Join filePath fileType
        match MkdirAll fs dir with
        | (some _, fs) => (MsgFailure, conn, fs)
        | (none, fs) =>
          match CompareHash256 (Sum256 fileMsg.Data) fileMsg.Hash with
          | some _ => (MsgFailure, conn, fs)
          | none =>
            let outPath := Join dir fileMsg.FileName
            match CreateFile fs outPath fileMsg with
            | (some _, fs) => (MsgFailure, conn, fs)
            | (none, fs) => (MsgSuccess, conn, WriteLog fs outPath)

/-- Function `sendTCPResponse`. -/
def sendTCPResponse (conn : Conn) (status : UInt8) : Option IOError × Conn :=
  conn.Write [status]

/-- Function `HandleTCP` of `server/tcp.go`: the status of `handleTCPClient` is written
back; a failure of that write is only printed. -/
def HandleTCP (cfg : ConnConfig) (conn : Conn) (fs : FS) : Conn × FS :=
  match handleTCPClient cfg conn fs with
  | (status, conn, fs) => ((sendTCPResponse conn status).2, fs)

/-- The tail of `SendTCPFile` of `client/tcp.go` once the file is read and the connection
is dialled: send the frame, read the one-byte reply; `defer conn.Close()` closes the
connection on every return. The result is `nil` exactly when the reply byte is 1. -/
def SendTCPFile (conn : Conn) (msg : FileMessage) : Option IOError × Conn :=
  match sendTCPMessage conn msg with
  | (some err, conn) => (some err, conn.Close)
  | (none, conn) =>
    match conn.incoming with
    | [] => (some IOError.EOF, conn.Close)
    | r :: rest =>
      if r = 1 then (none, { conn with incoming := rest }.Close)
      else (some IOError.ErrNotSaved, { conn with incoming := rest }.Close)

/-- Function `handleUDPClient` of `server/udp.go`; `cfg` is the value of `GlobalConfig` and
`chunk` the value of the package variable `chunkSize`. -/
def handleUDPClient (cfg : ConnConfig) (chunk : Nat) (conn : UDPConn) (fs : FS) :
    Option ((UInt8 × Option UDPAddr) × UDPConn × FS) :=
  match readUDPMessage chunk conn with
  | none => none
  | some (⟨_, clientAddr, Except.error _⟩, conn) => some ((MsgFailure, clientAddr), conn, fs)
  | some (⟨_, clientAddr, Except.ok fileMsg⟩, conn) =>
    match GetFileType cfg fileMsg.FileName with
    | (fileType, filePath, valid) =>
      if !valid then some ((MsgFailure, clientAddr), conn, fs)
      else
        let dir := Join filePath fileType
        match MkdirAll fs dir with
        | (some _, fs) => some ((MsgFailure, clientAddr), conn, fs)
        | (none, fs) =>
          match CompareHash256 (Sum256 fileMsg.Data) fileMsg.Hash with
          | some _ => some ((MsgFailure, clientAddr), conn, fs)
          | none =>
            let outPath := Join dir fileMsg.FileName
            match CreateFile fs outPath fileMsg with
            | (some _, fs) => some ((MsgFailure, clientAddr), conn, fs)
            | (none, fs) => some ((MsgSuccess, clientAddr), conn, WriteLog fs outPath)

/-- Function `sendUDPResponse`: `true` when the status datagram was sent. -/
def sendUDPResponse (conn : UDPConn) (clientAddr : UDPAddr) (status : UInt8) :
    Bool × UDPConn :=
  match conn.WriteToUDP [status] clientAddr with
  | (some _, conn) => (false, conn)
  | (none, conn) => (true, conn)

/-- Function `HandleUDP` of `server/udp.go`: the status is sent only when
`handleUDPClient` returned a peer address. -/
def HandleUDP (cfg : ConnConfig) (chunk : Nat) (conn : UDPConn) (fs : FS) :
    Option (UDPConn × FS) :=
  match handleUDPClient cfg chunk conn fs with
  | none => none
  | some ((status, clientAddr), conn, fs) =>
    match clientAddr with
    | none => some (conn, fs)
    | some addr => some ((sendUDPResponse conn addr status).2, fs)

/-! ## Worked transfers -/

/-- The bytes the client writes for an empty file named `empty.txt` with its SHA-256 digest. -/
def emptyTxtStream : Bytes :=
  (sendTCPMessage (Conn.fresh []) ⟨goStr "empty.txt", [], Sum256 []⟩).2.bytesWritten

/-- The file system after the server stored `empty.txt` on an empty file system. -/
def emptyTxtStored : FS :=
  { FS.empty with
    dirs := [goStr "Multimedia/Texts/.txt"]
    files := [(goStr "Multimedia/Texts/.txt/empty.txt", [])]
    logs := [goStr "Multimedia/Texts/.txt/empty.txt"] }

/-- A server socket on which a start marker and then only two of the four bytes of the
name length arrived. -/
def shortReadSocket : UDPConn :=
  UDPConn.listen exampleServer [⟨exampleClient, [0]⟩, ⟨exampleClient, [0, 0]⟩]

/-! ## Read sizes of the reassembly loop -/

/-- The reassembly loop of `readUDPMessage` (`readChunks`) with one ghost variable: `reads`
collects, in call order, the buffer length `readSize` of every `io.ReadFull` call of the
loop. Nothing else differs from `readChunks` (`readChunksTrace_erase`). -/
def readChunksTrace (chunkSize totalSize : Nat) :
    Nat → UDPConn → Bytes → Nat → List Nat →
      Option (Except IOError Bytes × Nat × UDPConn × List Nat)
  | 0, conn, receivedData, receivedDataSize, reads =>
    if receivedDataSize < totalSize then none
    else some (Except.ok receivedData, receivedDataSize, conn, reads)
  | fuel + 1, conn, receivedData, receivedDataSize, reads =>
    if receivedDataSize < totalSize then
      let remainingSize := totalSize - receivedDataSize
      let readSize := if remainingSize < chunkSize then remainingSize else chunkSize
      match ReadFullUDP conn readSize with
      | (Except.error err, conn) =>
        some (Except.error err, receivedDataSize, conn, reads ++ [readSize])
      | (Except.ok dataBuf, conn) =>
        readChunksTrace chunkSize totalSize fuel conn (receivedData ++ dataBuf)
          (receivedDataSize + dataBuf.length) (reads ++ [readSize])
    else some (Except.ok receivedData, receivedDataSize, conn, reads)

/-- Function `readUDPMessage` with the ghost variable of `readChunksTrace`: the third
component of the result lists the sizes of the chunk reads its loop requested. Nothing else
differs from `readUDPMessage` (`readUDPMessageTrace_erase`). -/
def readUDPMessageTrace (chunkSize : Nat) (conn : UDPConn) :
    Option (UDPRead × UDPConn × List Nat) :=
  match conn.ReadFromUDP 1 with
  | (Except.error err, conn) => some (⟨0, none, Except.error err⟩, conn, [])
  | (Except.ok (_, addr), conn) =>
    match ReadFullUDP conn 4 with
    | (Except.error err, conn) => some (⟨0, none, Except.error err⟩, conn, [])
    | (Except.ok fileNameLenBuf, conn) =>
      let fileNameLen := Uint32 fileNameLenBuf
      match ReadFullUDP conn fileNameLen with
      | (Except.error err, conn) => some (⟨0, none, Except.error err⟩, conn, [])
      | (Except.ok fileNameBuf, conn) =>
        match ReadFullUDP conn 4 with
        | (Except.error err, conn) => some (⟨0, none, Except.error err⟩, conn, [])
        | (Except.ok totalSizeBuf, conn) =>
          let totalSize := Uint32 totalSizeBuf
          match readChunksTrace chunkSize totalSize totalSize conn [] 0 [] with
          | none => none
          | some (Except.error err, receivedDataSize, conn, reads) =>
            some (⟨receivedDataSize, none, Except.error err⟩, conn, reads)
          | some (Except.ok receivedData, receivedDataSize, conn, reads) =>
            match ReadFullUDP conn 32 with
            | (Except.error err, conn) =>
              some (⟨receivedDataSize, none, Except.error err⟩, conn, reads)
            | (Except.ok hashBuf, conn) =>
              some (⟨receivedDataSize, some addr,
                Except.ok { FileName := fileNameBuf, Data := receivedData,
                            Hash := Hash32.fill hashBuf }⟩, conn, reads)

/-- The read sizes "`min(chunkSize, remaining)` until the total is reached" in closed form:
`total / chunkSize` full chunks, then the remainder if there is one. -/
def chunkReads (chunkSize total : Nat) : List Nat :=
  List.replicate (total / chunkSize) chunkSize ++
    (if total % chunkSize = 0 then [] else [total % chunkSize])

/-- The value that `json.NewDecoder(file).Decode(&config)` leaves in the local `config` of
`ReadConfigFile`: a field the file does not mention keeps its zero value, which for a slice
is `nil`, here `none`. -/
structure DecodedConfig where
  Host : Bytes
  TcpPort : Nat
  UdpPort : Nat
  ChunkSize : Nat
  ImagePath : Bytes
  AudioPath : Bytes
  VideoPath : Bytes
  TextPath : Bytes
  ImageExtensions : Option (List Bytes)
  AudioExtensions : Option (List Bytes)
  VideoExtensions : Option (List Bytes)
  TextExtensions : Option (List Bytes)
  deriving DecidableEq

/-- The zero value of the struct: what an empty JSON object decodes to. -/
def DecodedConfig.zero : DecodedConfig :=
  { Host := [], TcpPort := 0, UdpPort := 0, ChunkSize := 0, ImagePath := [], AudioPath := [],
    VideoPath := [], TextPath := [], ImageExtensions := none, AudioExtensions := none,
    VideoExtensions := none, TextExtensions := none }

/-- What `ReadConfigFile` finds under the file name: no file that can be opened, a file
that does not decode, or a file that decodes to `config`. -/
inductive ConfigFile
  | absent
  | malformed
  | decoded (config : DecodedConfig)
  deriving DecidableEq

/-- The two package-level variables of the server that the transfer code reads:
`GlobalConfig` of `utils.go` and `chunkSize` of `udp.go`. -/
structure Globals where
  GlobalConfig : ConnConfig
  chunkSize : Nat
  deriving DecidableEq

/-- The package variables when `main` starts. Go initialises package-level variables before
`main` runs, a variable after the ones its initialiser mentions: `GlobalConfig` gets its
literal, then `chunkSize` gets `GlobalConfig.ChunkSize`. -/
def Globals.init : Globals :=
  { GlobalConfig := FileTransfer.GlobalConfig, chunkSize := FileTransfer.chunkSize }

/-- Function `SetIfNotEmpty`; the result is the new value of `*dest`. -/
def SetIfNotEmpty (dest src : Bytes) : Bytes := if src ≠ [] then src else dest

/-- Function `SetIfNotEmptyExtensions`; the result is the new value of `*dest`. -/
def SetIfNotEmptyExtensions (dest : List Bytes) (src : Option (List Bytes)) : List Bytes :=
  match src with
  | some l => l
  | none => dest

/-- Function `SetIfNotEmptyInt`; the result is the new value of `*dest`. -/
def SetIfNotEmptyInt (dest src : Nat) : Nat := if src ≠ 0 then src else dest

/-- Function `ReadConfigFile`. `file` is what is found under the file name and `localIP` is
what `GetLocalIP` would return. Every assignment goes to a field of `GlobalConfig`; the
variable `chunkSize` is not assigned. -/
def ReadConfigFile (file : ConfigFile) (localIP : Except IOError Bytes) (g : Globals) :
    Option IOError × Globals :=
  match file with
  | ConfigFile.absent => (none, g)
  | ConfigFile.malformed => (some IOError.ErrDecode, g)
  | ConfigFile.decoded config =>
    let cfg := { g.GlobalConfig with Host := SetIfNotEmpty g.GlobalConfig.Host config.Host }
    let host : Except IOError Bytes :=
      if cfg.Host = [] then localIP else Except.ok cfg.Host
    match host with
    | Except.error err => (some err, { g with GlobalConfig := cfg })
    | Except.ok h =>
      (none, { g with GlobalConfig :=
        { Host := h
          TcpPort := SetIfNotEmptyInt cfg.TcpPort config.TcpPort
          UdpPort := SetIfNotEmptyInt cfg.UdpPort config.UdpPort
          ChunkSize := SetIfNotEmptyInt cfg.ChunkSize config.ChunkSize
          ImagePath := SetIfNotEmpty cfg.ImagePath config.ImagePath
          AudioPath := SetIfNotEmpty cfg.AudioPath config.AudioPath
          VideoPath := SetIfNotEmpty cfg.VideoPath config.VideoPath
          TextPath := SetIfNotEmpty cfg.TextPath config.TextPath
          ImageExtensions := SetIfNotEmptyExtensions cfg.ImageExtensions config.ImageExtensions
          AudioExtensions := SetIfNotEmptyExtensions cfg.AudioExtensions config.AudioExtensions
          VideoExtensions := SetIfNotEmptyExtensions cfg.VideoExtensions config.VideoExtensions
          TextExtensions :=
            SetIfNotEmptyExtensions cfg.TextExtensions config.TextExtensions } })

/-- The datagram side of `main`, one round of its `for { HandleUDP(udpListener) }`: the
configuration file is read into the package variables, `main` returns if that fails, and
the transfer is handled with the package variables as they then are. Instrumented like
`readUDPMessageTrace`: the result is what `readUDPMessage` returns inside `HandleUDP` with
the sizes of the chunk reads it requested. -/
def mainUDPRead (file : ConfigFile) (localIP : Except IOError Bytes) (conn : UDPConn) :
    Option (UDPRead × UDPConn × List Nat) :=
  match ReadConfigFile file localIP Globals.init with
  | (some _, _) => none
  | (none, g) => readUDPMessageTrace g.chunkSize conn

/-- A configuration file that sets only the chunk size, to 8192. -/
def chunk8192File : ConfigFile :=
  ConfigFile.decoded { DecodedConfig.zero with ChunkSize := 8192 }

/-! ## Path elements and the shape of a cleaned path -/

/-- A file name that is a single ordinary path element: not empty, without a separator, and
neither `.` nor `..`. This is what the client sends (`fileInfo.Name()`). -/
def PlainName (e : Bytes) : Prop :=
  e ≠ [] ∧ Separator ∉ e ∧ e ≠ [Dot] ∧ e ≠ [Dot, Dot]

/-- Whether a file name is a single ordinary path element can be computed. -/
instance PlainName.decidable (e : Bytes) : Decidable (PlainName e) :=
  inferInstanceAs (Decidable (e ≠ [] ∧ Separator ∉ e ∧ e ≠ [Dot] ∧ e ≠ [Dot, Dot]))

/-- The last step of `Clean`: the kept elements (last one first) joined by the separator,
behind the root separator of a rooted path; `.` when nothing is kept. -/
def cleanRender (rooted : Bool) (out : List Bytes) : Bytes :=
  if rooted then Separator :: List.intercalate [Separator] out.reverse
  else if List.intercalate [Separator] out.reverse = [] then [Dot]
  else List.intercalate [Separator] out.reverse

/-- The stacks that `Clean` builds: ordinary elements on top of `k` leading `..` elements,
and no `..` at all in a rooted path. -/
def CleanStack (rooted : Bool) (out : List Bytes) : Prop :=
  ∃ (k : Nat) (plains : List Bytes), out = plains ++ List.replicate k [Dot, Dot] ∧
    (rooted = true → k = 0) ∧ ∀ e ∈ plains, PlainName e

/-! ## A transfer under a name with parent elements -/

/-- The bytes a client writes for an empty file sent under the name `../../x.txt` with its
SHA-256 digest. -/
def parentNameStream : Bytes :=
  (sendTCPMessage (Conn.fresh []) ⟨goStr "../../x.txt", [], Sum256 []⟩).2.bytesWritten

/-- The file system after the server handled `parentNameStream` on an empty file system. -/
def parentNameStored : FS :=
  { FS.empty with
    dirs := [goStr "Multimedia/Texts/.txt"]
    files := [(goStr "Multimedia/x.txt", [])]
    logs := [goStr "Multimedia/x.txt"] }

/-! ## Codec lemmas -/

set_option maxRecDepth 1000000

theorem toNat_ofNat8 (n : Nat) : (UInt8.ofNat n).toNat = n % 256 := by
  simp [UInt8.ofNat, UInt8.toNat]

theorem PutUint32_length (v : Nat) : (PutUint32 v).length = 4 := rfl

theorem ofNat8_mod (a : Nat) : UInt8.ofNat (a % 256) = UInt8.ofNat a := by
  show UInt8.mk (BitVec.ofNat 8 _) = UInt8.mk (BitVec.ofNat 8 _)
  congr 1
  apply BitVec.eq_of_toNat_eq
  simp

theorem PutUint32_eq_bigEndian32 (v : Nat) : PutUint32 v = bigEndian32 v := by
  simp only [PutUint32, bigEndian32, Nat.shiftRight_eq_div_pow, ofNat8_mod]

theorem Uint32_PutUint32 (v : Nat) (hv : v < 2 ^ 32) : Uint32 (PutUint32 v) = v := by
  simp only [Uint32, PutUint32, toNat_ofNat8, Nat.shiftRight_eq_div_pow, Nat.shiftLeft_eq]
  have h0 : v % 256 < 2 ^ 8 := by omega
  have h1 : 2 ^ 8 * (v / 2 ^ 8 % 256) + v % 256 < 2 ^ 16 := by omega
  have h2 : 2 ^ 16 * (v / 2 ^ 16 % 256) + (2 ^ 8 * (v / 2 ^ 8 % 256) + v % 256) < 2 ^ 24 := by
    omega
  have e0 := Nat.mul_add_lt_is_or h0 (v / 2 ^ 8 % 256)
  have e1 := Nat.mul_add_lt_is_or h1 (v / 2 ^ 16 % 256)
  have e2 := Nat.mul_add_lt_is_or h2 (v / 2 ^ 24 % 256)
  rw [Nat.mul_comm (v / 2 ^ 8 % 256), Nat.mul_comm (v / 2 ^ 16 % 256),
    Nat.mul_comm (v / 2 ^ 24 % 256)]
  rw [Nat.or_comm (v % 256), Nat.or_comm _ (2 ^ 16 * (v / 2 ^ 16 % 256)),
    Nat.or_comm _ (2 ^ 24 * (v / 2 ^ 24 % 256))]
  rw [← e0, ← e1, ← e2]
  omega

theorem uint32_of_lt (n : Nat) (h : n < 2 ^ 32) : uint32 n = n := Nat.mod_eq_of_lt h

theorem Hash32_fill_val (h : Hash32) : Hash32.fill h.val = h := by
  apply Subtype.ext
  have hl := h.property
  simp only [Hash32.fill]
  rw [List.take_append_of_le_length (by omega), List.take_of_length_le (by omega)]

/-! ## Stream transport lemmas -/

theorem Conn.Write_accepting (c : Conn) (b : Bytes) (hopen : c.closed = false)
    (hquota : c.writeQuota = none) :
    c.Write b = (none, { c with written := c.written ++ [b] }) := by
  simp [Conn.Write, hopen, hquota]

theorem ReadFull_append (c : Conn) (a b : Bytes) (hopen : c.closed = false)
    (hin : c.incoming = a ++ b) :
    ReadFull c a.length = (Except.ok a, { c with incoming := b }) := by
  cases a with
  | nil =>
    cases c
    simp_all [ReadFull]
  | cons x xs =>
    simp [ReadFull, hopen, hin]

theorem sendTCPMessage_accepting (conn : Conn) (msg : FileMessage)
    (hopen : conn.closed = false) (hquota : conn.writeQuota = none) :
    sendTCPMessage conn msg =
      (none, { conn with written := conn.written ++
        [[0], PutUint32 (uint32 msg.FileName.length), msg.FileName,
         PutUint32 (uint32 msg.Data.length), msg.Data, msg.Hash.val] }) := by
  simp [sendTCPMessage, Conn.Write, hopen, hquota]

theorem readMessage_frame (server : Conn) (msg : FileMessage) (rest : Bytes)
    (hopen : server.closed = false)
    (hn : msg.FileName.length < 2 ^ 32) (hm : msg.Data.length < 2 ^ 32)
    (hin : server.incoming = [0] ++ (PutUint32 msg.FileName.length ++ (msg.FileName ++
      (PutUint32 msg.Data.length ++ (msg.Data ++ (msg.Hash.val ++ rest)))))) :
    readMessage server = (Except.ok msg, { server with incoming := rest }) := by
  have r1 := ReadFull_append server [0] _ hopen hin
  have r2 := ReadFull_append
    { server with incoming := PutUint32 msg.FileName.length ++ (msg.FileName ++
      (PutUint32 msg.Data.length ++ (msg.Data ++ (msg.Hash.val ++ rest)))) }
    (PutUint32 msg.FileName.length) _ hopen rfl
  have r3 := ReadFull_append
    { server with incoming := msg.FileName ++
      (PutUint32 msg.Data.length ++ (msg.Data ++ (msg.Hash.val ++ rest))) }
    msg.FileName _ hopen rfl
  have r4 := ReadFull_append
    { server with incoming := PutUint32 msg.Data.length ++ (msg.Data ++ (msg.Hash.val ++ rest)) }
    (PutUint32 msg.Data.length) _ hopen rfl
  have r5 := ReadFull_append { server with incoming := msg.Data ++ (msg.Hash.val ++ rest) }
    msg.Data _ hopen rfl
  have r6 := ReadFull_append { server with incoming := msg.Hash.val ++ rest }
    msg.Hash.val _ hopen rfl
  simp only [PutUint32_length, List.length_singleton, msg.Hash.property] at r1 r2 r4 r6
  simp only [readMessage, r1, r2, Uint32_PutUint32 _ hn, r3, r4, Uint32_PutUint32 _ hm, r5, r6,
    Hash32_fill_val]

/-! ## Chunking lemmas -/

theorem chunksOf_nil (c : Nat) : chunksOf c [] = [] := by
  rw [chunksOf]; simp

theorem chunksOf_step (c : Nat) (xs : Bytes) (hc : 0 < c) (hx : xs ≠ []) :
    chunksOf c xs = xs.take c :: chunksOf c (xs.drop c) := by
  rw [chunksOf]; simp [hc, hx]

theorem chunksOf_flatten (c : Nat) (hc : 0 < c) (xs : Bytes) : (chunksOf c xs).flatten = xs := by
  generalize h : xs.length = n
  induction n using Nat.strong_induction_on generalizing xs with
  | _ n ih =>
    by_cases hx : xs = []
    · subst hx; simp [chunksOf_nil]
    · rw [chunksOf_step c xs hc hx, List.flatten_cons]
      have hpos := List.length_pos.mpr hx
      rw [ih (xs.drop c).length (by simp only [List.length_drop]; omega) _ rfl]
      exact List.take_append_drop c xs

theorem chunksOf_ne_nil (c : Nat) (hc : 0 < c) (xs : Bytes) : ∀ d ∈ chunksOf c xs, d ≠ [] := by
  generalize h : xs.length = n
  induction n using Nat.strong_induction_on generalizing xs with
  | _ n ih =>
    by_cases hx : xs = []
    · subst hx; simp [chunksOf_nil]
    · rw [chunksOf_step c xs hc hx]
      have hpos := List.length_pos.mpr hx
      intro d hd
      rcases List.mem_cons.mp hd with rfl | hd
      · intro h0
        have : (xs.take c).length = 0 := by rw [h0]; rfl
        simp only [List.length_take] at this
        omega
      · exact ih (xs.drop c).length (by simp only [List.length_drop]; omega) _ rfl d hd

theorem chunksOf_getElem? (c : Nat) (hc : 0 < c) (xs : Bytes) (i : Nat) :
    (chunksOf c xs)[i]? = if i * c < xs.length then some ((xs.drop (i * c)).take c) else none := by
  induction i generalizing xs with
  | zero =>
    by_cases hx : xs = []
    · subst hx; simp [chunksOf_nil]
    · have hpos := List.length_pos.mpr hx
      rw [chunksOf_step c xs hc hx]
      simp [hpos]
  | succ i ih =>
    by_cases hx : xs = []
    · subst hx; simp [chunksOf_nil]
    · have hpos := List.length_pos.mpr hx
      rw [chunksOf_step c xs hc hx, List.getElem?_cons_succ, ih]
      have e : (i + 1) * c = c + i * c := by ring
      simp only [List.length_drop, List.drop_drop, e]
      by_cases hlt : c + i * c < xs.length
      · rw [if_pos hlt, if_pos (by omega)]
      · rw [if_neg hlt, if_neg (by omega)]

theorem chunksOf_length (c : Nat) (hc : 0 < c) (xs : Bytes) :
    (chunksOf c xs).length = (xs.length + c - 1) / c := by
  generalize h : xs.length = n
  induction n using Nat.strong_induction_on generalizing xs with
  | _ n ih =>
    by_cases hx : xs = []
    · subst hx
      have hn : n = 0 := by rw [← h]; rfl
      subst hn
      rw [chunksOf_nil]
      simp only [List.length_nil, Nat.zero_add]
      exact (Nat.div_eq_of_lt (by omega)).symm
    · rw [chunksOf_step c xs hc hx]
      have hpos := List.length_pos.mpr hx
      rw [List.length_cons, ih (xs.drop c).length (by simp only [List.length_drop]; omega) _ rfl]
      simp only [List.length_drop]
      subst h
      by_cases hle : c ≤ xs.length
      · have : xs.length + c - 1 = (xs.length - c + c - 1) + c := by omega
        rw [this, Nat.add_div_right _ hc]
      · have h1 : xs.length - c + c - 1 < c := by omega
        have h2 : xs.length + c - 1 = (xs.length - 1) + c := by omega
        rw [Nat.div_eq_of_lt h1, h2, Nat.add_div_right _ hc, Nat.div_eq_of_lt (by omega)]

/-! ## Datagram sender lemmas -/

theorem UDPConn.Write_datagram_accepting (c : UDPConn) (b : Bytes) (hquota : c.writeQuota = none) :
    c.Write b = (none, { c with outbox := c.outbox ++ [⟨c.raddr, b⟩] }) := by
  simp [UDPConn.Write, hquota]

theorem slice_eq_take (data : Bytes) (i c : Nat) (hi : i < data.length) :
    slice data i (if i + c > data.length then data.length else i + c) = (data.drop i).take c := by
  unfold slice
  split
  · rw [List.take_of_length_le (by simp only [List.length_drop]; omega),
      List.take_of_length_le (by simp only [List.length_drop]; omega)]
  · congr 1
    omega

theorem sendChunks_accepting (c : Nat) (hc : 0 < c) (data : Bytes) :
    ∀ (fuel i : Nat) (conn : UDPConn), conn.writeQuota = none →
      data.length ≤ i + fuel * c →
      sendChunks c data fuel i conn = some (none, { conn with
        outbox := conn.outbox ++ (chunksOf c (data.drop i)).map (Datagram.mk conn.raddr) }) := by
  intro fuel
  induction fuel with
  | zero =>
    intro i conn _ hfuel
    have hle : data.length ≤ i := by omega
    simp [sendChunks, Nat.not_lt.mpr hle, List.drop_eq_nil_of_le hle, chunksOf_nil]
  | succ fuel ih =>
    intro i conn hquota hfuel
    by_cases hi : i < data.length
    · have hne : data.drop i ≠ [] := by
        intro h0
        have : (data.drop i).length = 0 := by rw [h0]; rfl
        simp only [List.length_drop] at this
        omega
      have hfuel2 : data.length ≤ (i + c) + fuel * c := by
        rw [Nat.succ_mul] at hfuel
        omega
      simp only [sendChunks, if_pos hi, slice_eq_take data i c hi,
        UDPConn.Write_datagram_accepting conn _ hquota]
      rw [ih (i + c) { conn with outbox := conn.outbox ++ [⟨conn.raddr, (data.drop i).take c⟩] }
        hquota hfuel2, chunksOf_step c _ hc hne, List.drop_drop]
      simp [Nat.add_comm]
    · have hle : data.length ≤ i := by omega
      simp [sendChunks, hi, List.drop_eq_nil_of_le hle, chunksOf_nil]

theorem sendUDPMessage_accepting (conn : UDPConn) (msg : FileMessage)
    (hquota : conn.writeQuota = none) :
    sendUDPMessage conn msg = some (none, { conn with
      outbox := conn.outbox ++
        ([[0], PutUint32 (uint32 msg.FileName.length), msg.FileName,
          PutUint32 (uint32 msg.Data.length)] ++ chunksOf 1024 msg.Data ++
          [msg.Hash.val]).map (Datagram.mk conn.raddr) }) := by
  obtain ⟨la, ra, ib, ob, wq⟩ := conn
  simp only at hquota
  subst hquota
  have hs := sendChunks_accepting 1024 (by decide) msg.Data msg.Data.length 0
    { laddr := la, raddr := ra, inbox := ib, outbox := ob ++ [⟨ra, [0]⟩] ++
        [⟨ra, PutUint32 (uint32 msg.FileName.length)⟩] ++ [⟨ra, msg.FileName⟩] ++
        [⟨ra, PutUint32 (uint32 msg.Data.length)⟩], writeQuota := none } rfl (by omega)
  simp only [List.drop_zero] at hs
  simp only [sendUDPMessage, UDPConn.Write, hs]
  simp

/-! ## Datagram receiver lemmas -/

theorem readFullLoop_zero (q : List Datagram) (buf : Bytes) :
    readFullLoop q 0 buf = (Except.ok buf, q) := by
  cases q <;> rfl

theorem readFullLoop_skip_empty (a : UDPAddr) (q : List Datagram) (k : Nat) (buf : Bytes) :
    readFullLoop (⟨a, []⟩ :: q) (k + 1) buf = readFullLoop q (k + 1) buf := by
  simp [readFullLoop]

theorem readFullLoop_exact (a : UDPAddr) (ps : List Bytes) (hne : ∀ p ∈ ps, p ≠ [])
    (q : List Datagram) (buf : Bytes) :
    readFullLoop (ps.map (Datagram.mk a) ++ q) (ps.map List.length).sum buf =
      (Except.ok (buf ++ ps.flatten), q) := by
  induction ps generalizing buf with
  | nil => simp [readFullLoop_zero]
  | cons p ps ih =>
    have hp : 0 < p.length := List.length_pos.mpr (hne p (List.mem_cons_self p ps))
    obtain ⟨k, hk⟩ : ∃ k, (List.map List.length (p :: ps)).sum = k + 1 :=
      ⟨p.length + (ps.map List.length).sum - 1, by simp only [List.map_cons, List.sum_cons]; omega⟩
    have hk2 : k + 1 = p.length + (ps.map List.length).sum := by
      rw [← hk]; simp
    rw [hk, List.map_cons, List.cons_append]
    simp only [readFullLoop]
    rw [List.take_of_length_le (by omega)]
    have hneed : k + 1 - p.length = (ps.map List.length).sum := by omega
    rw [hneed, ih (fun p' hp' => hne p' (List.mem_cons_of_mem p hp'))]
    simp

theorem chunksOf_split (c : Nat) (hc : 0 < c) (m : Nat) (xs : Bytes) :
    chunksOf c xs = chunksOf c (xs.take (m * c)) ++ chunksOf c (xs.drop (m * c)) := by
  induction m generalizing xs with
  | zero => simp [chunksOf_nil]
  | succ m ih =>
    by_cases hx : xs = []
    · subst hx; simp [chunksOf_nil]
    · have hpos := List.length_pos.mpr hx
      have hmc : (m + 1) * c = c + m * c := by ring
      have hx2 : xs.take ((m + 1) * c) ≠ [] := by
        intro h0
        have : (xs.take ((m + 1) * c)).length = 0 := by rw [h0]; rfl
        simp only [List.length_take] at this
        have : 0 < (m + 1) * c := Nat.mul_pos (Nat.succ_pos m) hc
        omega
      rw [chunksOf_step c xs hc hx, chunksOf_step c _ hc hx2, ih (xs.drop c)]
      rw [List.take_take, List.drop_take, List.drop_drop, hmc]
      simp [Nat.add_comm]

theorem readFullLoop_chunks (a : UDPAddr) (c : Nat) (hc : 0 < c) (xs : Bytes) (k : Nat)
    (hk : k ≤ xs.length) (hal : c ∣ k ∨ k = xs.length) (q : List Datagram) (buf : Bytes) :
    readFullLoop ((chunksOf c xs).map (Datagram.mk a) ++ q) k buf =
      (Except.ok (buf ++ xs.take k), (chunksOf c (xs.drop k)).map (Datagram.mk a) ++ q) := by
  have hsplit : chunksOf c xs = chunksOf c (xs.take k) ++ chunksOf c (xs.drop k) := by
    rcases hal with ⟨m, hm⟩ | hfull
    · rw [hm, Nat.mul_comm]
      exact chunksOf_split c hc m xs
    · rw [hfull, List.take_length, List.drop_length, chunksOf_nil, List.append_nil]
  have hsum : ((chunksOf c (xs.take k)).map List.length).sum = k := by
    rw [← List.length_flatten, chunksOf_flatten c hc, List.length_take]
    omega
  have h := readFullLoop_exact a (chunksOf c (xs.take k)) (chunksOf_ne_nil c hc _)
    ((chunksOf c (xs.drop k)).map (Datagram.mk a) ++ q) buf
  rw [hsum, chunksOf_flatten c hc] at h
  rw [hsplit, List.map_append, List.append_assoc, h]

theorem ReadFullUDP_eq (c : UDPConn) (n : Nat) :
    ReadFullUDP c n = ((readFullLoop c.inbox n []).1, { c with inbox := (readFullLoop c.inbox n []).2 }) := by
  rfl

theorem ReadFullUDP_one (c : UDPConn) (a : UDPAddr) (p : Bytes) (q : List Datagram)
    (hp : p ≠ []) (hin : c.inbox = ⟨a, p⟩ :: q) :
    ReadFullUDP c p.length = (Except.ok p, { c with inbox := q }) := by
  have h := readFullLoop_exact a [p] (by simpa using hp) q []
  simp only [List.map_cons, List.map_nil, List.sum_cons, List.sum_nil, Nat.add_zero,
    List.singleton_append, List.flatten_cons, List.flatten_nil, List.append_nil,
    List.nil_append] at h
  rw [ReadFullUDP_eq, hin, h]

theorem ReadFullUDP_name (c : UDPConn) (a : UDPAddr) (name b4 : Bytes) (q : List Datagram)
    (hb : b4.length = 4) (hin : c.inbox = ⟨a, name⟩ :: ⟨a, b4⟩ :: q) :
    ∃ c1, ReadFullUDP c name.length = (Except.ok name, c1) ∧
      ReadFullUDP c1 4 = (Except.ok b4, { c with inbox := q }) := by
  have hb4 : b4 ≠ [] := by
    intro h0
    rw [h0] at hb
    cases hb
  cases name with
  | nil =>
    refine ⟨c, ?_, ?_⟩
    · rw [ReadFullUDP_eq, List.length_nil, readFullLoop_zero]
    · rw [ReadFullUDP_eq, hin, readFullLoop_skip_empty]
      have h := readFullLoop_exact a [b4] (by simpa using hb4) q []
      simp only [List.map_cons, List.map_nil, List.sum_cons, List.sum_nil, Nat.add_zero,
        List.singleton_append, List.flatten_cons, List.flatten_nil, List.append_nil,
        List.nil_append, hb] at h
      rw [h]
  | cons x xs =>
    refine ⟨{ c with inbox := ⟨a, b4⟩ :: q }, ReadFullUDP_one c a (x :: xs) _ (by simp) hin, ?_⟩
    have h := ReadFullUDP_one { c with inbox := ⟨a, b4⟩ :: q } a b4 q hb4 rfl
    rw [hb] at h
    exact h

theorem readChunks_aligned (a : UDPAddr) (data : Bytes) (chunk : Nat) (hchunk : 0 < chunk)
    (hal : 1024 ∣ chunk ∨ data.length ≤ chunk) (q : List Datagram) :
    ∀ (fuel r : Nat) (conn : UDPConn), r ≤ data.length → (1024 ∣ r ∨ r = data.length) →
      data.length - r ≤ fuel →
      conn.inbox = (chunksOf 1024 (data.drop r)).map (Datagram.mk a) ++ q →
      readChunks chunk data.length fuel conn (data.take r) r =
        some (Except.ok data, data.length, { conn with inbox := q }) := by
  have hdone : ∀ (r : Nat) (conn : UDPConn), r ≤ data.length → ¬ r < data.length →
      conn.inbox = (chunksOf 1024 (data.drop r)).map (Datagram.mk a) ++ q →
      (Except.ok (data.take r), r, conn) =
        ((Except.ok data, data.length, { conn with inbox := q }) :
          Except IOError Bytes × Nat × UDPConn) := by
    intro r conn hr hlt hin
    have hrl : r = data.length := by omega
    subst hrl
    rw [List.drop_length, chunksOf_nil] at hin
    rw [List.take_length]
    cases conn
    simp_all
  intro fuel
  induction fuel with
  | zero =>
    intro r conn hr _ hfuel hin
    have hlt : ¬ r < data.length := by omega
    simp only [readChunks, if_neg hlt]
    rw [hdone r conn hr hlt hin]
  | succ fuel ih =>
    intro r conn hr hr1024 hfuel hin
    by_cases hlt : r < data.length
    · have hr1024 : 1024 ∣ r := by
        rcases hr1024 with h | h
        · exact h
        · omega
      simp only [readChunks, if_pos hlt]
      generalize hrs : (if data.length - r < chunk then data.length - r else chunk) = readSize
      have hrs_le : readSize ≤ (data.drop r).length := by
        rw [← hrs, List.length_drop]
        split <;> omega
      have hrs_pos : 0 < readSize := by
        rw [← hrs]
        split <;> omega
      have hrs_al : 1024 ∣ readSize ∨ readSize = (data.drop r).length := by
        rw [← hrs, List.length_drop]
        split
        · exact Or.inr rfl
        · rcases hal with h | h
          · exact Or.inl h
          · right
            have h0 : r = 0 := by
              rcases hr1024 with ⟨m, hm⟩
              omega
            omega
      have hread := readFullLoop_chunks a 1024 (by decide) (data.drop r) readSize hrs_le hrs_al
        q []
      rw [← hin, List.nil_append, List.drop_drop] at hread
      rw [ReadFullUDP_eq, hread]
      simp only [List.length_take, List.length_drop]
      have hmin : min readSize (data.length - r) = readSize := by
        rw [List.length_drop] at hrs_le
        omega
      rw [hmin, ← List.take_add]
      have hnext : 1024 ∣ r + readSize ∨ r + readSize = data.length := by
        rw [List.length_drop] at hrs_al
        rcases hrs_al with h | h
        · exact Or.inl (Nat.dvd_add hr1024 h)
        · right; omega
      rw [List.length_drop] at hrs_le
      have := ih (r + readSize) { conn with inbox := (chunksOf 1024 (data.drop (r + readSize))).map (Datagram.mk a) ++ q }
        (by omega) hnext (by omega) (by simp [Nat.add_comm])
      exact this
    · simp only [readChunks, if_neg hlt]
      rw [hdone r conn hr hlt hin]


/-! ## Handler lemmas -/

theorem MsgSuccess_ne_MsgFailure : MsgSuccess ≠ MsgFailure := by decide

theorem CompareHash256_eq_none (h1 h2 : Hash32) : CompareHash256 h1 h2 = none ↔ h1 = h2 := by
  unfold CompareHash256
  by_cases h : h1 = h2 <;> simp [h]

theorem MkdirAll_files (fs : FS) (dir : Bytes) : (MkdirAll fs dir).2.files = fs.files := by
  unfold MkdirAll
  split
  · rfl
  · split <;> rfl

theorem GetFileType_fst (cfg : ConnConfig) (fileName : Bytes) :
    (GetFileType cfg fileName).1 = Ext fileName := by
  unfold GetFileType
  simp only []
  split
  · rfl
  · split
    · rfl
    · split
      · rfl
      · split <;> rfl

theorem CreateFile_ok (fs fs' : FS) (outPath : Bytes) (msg : FileMessage)
    (h : CreateFile fs outPath msg = (none, fs')) :
    fs' = { fs with files := (outPath, msg.Data) :: fs.files.filter (fun f => f.1 ≠ outPath) } := by
  unfold CreateFile at h
  split at h
  · cases h
  · simp only [] at h
    split at h
    · cases h
    · cases h
      rfl

/-- What `handleTCPClient` does once `readMessage` has returned a frame. -/
theorem handleTCPClient_decoded (cfg : ConnConfig) (conn conn' : Conn) (fs : FS)
    (msg : FileMessage) (hread : readMessage conn = (Except.ok msg, conn')) :
    ((handleTCPClient cfg conn fs).1 = MsgFailure ∧
      (handleTCPClient cfg conn fs).2.2.files = fs.files ∨
     (handleTCPClient cfg conn fs).1 = MsgFailure ∧ msg.Hash = Sum256 msg.Data ∧
      (GetFileType cfg msg.FileName).2.2 = true) ∨
    ((handleTCPClient cfg conn fs).1 = MsgSuccess ∧ msg.Hash = Sum256 msg.Data ∧
      (GetFileType cfg msg.FileName).2.2 = true ∧
      (handleTCPClient cfg conn fs).2.2.files =
        (Join (Join (GetFileType cfg msg.FileName).2.1 (GetFileType cfg msg.FileName).1)
          msg.FileName, msg.Data) ::
          fs.files.filter (fun f => f.1 ≠ Join (Join (GetFileType cfg msg.FileName).2.1
            (GetFileType cfg msg.FileName).1) msg.FileName)) := by
  simp only [handleTCPClient, hread]
  rcases hg : GetFileType cfg msg.FileName with ⟨ext, path, valid⟩
  cases valid
  · simp
  · simp only [Bool.not_true, Bool.false_eq_true, if_false]
    have hmf := MkdirAll_files fs (Join path ext)
    rcases hmk : MkdirAll fs (Join path ext) with ⟨_ | e, fs1⟩
    · rw [hmk] at hmf
      simp only at hmf
      simp only []
      by_cases hh : Sum256 msg.Data = msg.Hash
      · have hc := (CompareHash256_eq_none (Sum256 msg.Data) msg.Hash).mpr hh
        simp only [hc]
        rcases hcf : CreateFile fs1 (Join (Join path ext) msg.FileName) msg with ⟨_ | e, fs2⟩
        · have h2 := CreateFile_ok _ _ _ _ hcf
          subst h2
          simp [hh, hmf, WriteLog]
        · simp [hh]
      · have hc : ∃ e, CompareHash256 (Sum256 msg.Data) msg.Hash = some e := by
          cases hcc : CompareHash256 (Sum256 msg.Data) msg.Hash with
          | none => exact absurd ((CompareHash256_eq_none _ _).mp hcc) hh
          | some e => exact ⟨e, rfl⟩
        obtain ⟨e, hc⟩ := hc
        simp [hc, hmf]
    · rw [hmk] at hmf
      simp only at hmf
      simp [hmf]

/-- What `handleUDPClient` does once `readUDPMessage` has returned a frame. -/
theorem handleUDPClient_decoded (cfg : ConnConfig) (chunk : Nat) (conn conn' : UDPConn) (fs : FS)
    (n : Nat) (addr : Option UDPAddr) (msg : FileMessage)
    (hread : readUDPMessage chunk conn = some (⟨n, addr, Except.ok msg⟩, conn')) :
    ∃ status fs', handleUDPClient cfg chunk conn fs = some ((status, addr), conn', fs') ∧
    ((status = MsgFailure ∧ fs'.files = fs.files ∨
      status = MsgFailure ∧ msg.Hash = Sum256 msg.Data ∧
        (GetFileType cfg msg.FileName).2.2 = true) ∨
     (status = MsgSuccess ∧ msg.Hash = Sum256 msg.Data ∧
      (GetFileType cfg msg.FileName).2.2 = true ∧
      fs'.files =
        (Join (Join (GetFileType cfg msg.FileName).2.1 (GetFileType cfg msg.FileName).1)
          msg.FileName, msg.Data) ::
          fs.files.filter (fun f => f.1 ≠ Join (Join (GetFileType cfg msg.FileName).2.1
            (GetFileType cfg msg.FileName).1) msg.FileName))) := by
  simp only [handleUDPClient, hread]
  rcases hg : GetFileType cfg msg.FileName with ⟨ext, path, valid⟩
  cases valid
  · exact ⟨_, _, rfl, Or.inl (Or.inl ⟨rfl, rfl⟩)⟩
  · simp only [Bool.not_true, Bool.false_eq_true, if_false]
    have hmf := MkdirAll_files fs (Join path ext)
    rcases hmk : MkdirAll fs (Join path ext) with ⟨_ | e, fs1⟩
    · rw [hmk] at hmf
      simp only at hmf
      simp only []
      by_cases hh : Sum256 msg.Data = msg.Hash
      · have hc := (CompareHash256_eq_none (Sum256 msg.Data) msg.Hash).mpr hh
        simp only [hc]
        rcases hcf : CreateFile fs1 (Join (Join path ext) msg.FileName) msg with ⟨_ | e, fs2⟩
        · have h2 := CreateFile_ok _ _ _ _ hcf
          subst h2
          refine ⟨_, _, rfl, Or.inr ⟨rfl, hh.symm, trivial, ?_⟩⟩
          simp [hmf, WriteLog]
        · exact ⟨_, _, rfl, Or.inl (Or.inr ⟨rfl, hh.symm, trivial⟩)⟩
      · have hc : ∃ e, CompareHash256 (Sum256 msg.Data) msg.Hash = some e := by
          cases hcc : CompareHash256 (Sum256 msg.Data) msg.Hash with
          | none => exact absurd ((CompareHash256_eq_none _ _).mp hcc) hh
          | some e => exact ⟨e, rfl⟩
        obtain ⟨e, hc⟩ := hc
        simp only [hc]
        exact ⟨_, _, rfl, Or.inl (Or.inl ⟨rfl, hmf⟩)⟩
    · rw [hmk] at hmf
      simp only at hmf
      exact ⟨_, _, rfl, Or.inl (Or.inl ⟨rfl, hmf⟩)⟩

theorem handleTCPClient_read_error (cfg : ConnConfig) (conn conn' : Conn) (fs : FS)
    (err : IOError) (hread : readMessage conn = (Except.error err, conn')) :
    handleTCPClient cfg conn fs = (MsgFailure, conn', fs) := by
  simp only [handleTCPClient, hread]

theorem handleUDPClient_read_error (cfg : ConnConfig) (chunk : Nat) (conn conn' : UDPConn)
    (fs : FS) (n : Nat) (addr : Option UDPAddr) (err : IOError)
    (hread : readUDPMessage chunk conn = some (⟨n, addr, Except.error err⟩, conn')) :
    handleUDPClient cfg chunk conn fs = some ((MsgFailure, addr), conn', fs) := by
  simp only [handleUDPClient, hread]

theorem FS.read_head (fs : FS) (path data : Bytes) (others : List (Bytes × Bytes)) :
    ({ fs with files := (path, data) :: others } : FS).read path = some data := by
  simp [FS.read]

theorem GetFileType_eq (cfg : ConnConfig) (fileName : Bytes)
    (h : (GetFileType cfg fileName).2.2 = true) :
    GetFileType cfg fileName = (Ext fileName, (GetFileType cfg fileName).2.1, true) := by
  rw [← GetFileType_fst cfg fileName, ← h]

/-! ### connection state -/

theorem ReadFull_writeSide (c : Conn) (n : Nat) : (ReadFull c n).2.writeSide = c.writeSide := by
  unfold ReadFull
  repeat' split
  all_goals rfl

theorem readMessage_writeSide (c : Conn) : (readMessage c).2.writeSide = c.writeSide := by
  unfold readMessage
  rcases h1 : ReadFull c 1 with ⟨_ | b1, c1⟩ <;> have k1 := ReadFull_writeSide c 1 <;>
    rw [h1] at k1 <;> simp only at k1 ⊢
  · exact k1
  rcases h2 : ReadFull c1 4 with ⟨_ | b2, c2⟩ <;> have k2 := ReadFull_writeSide c1 4 <;>
    rw [h2] at k2 <;> simp only at k2 ⊢
  · exact k2.trans k1
  rcases h3 : ReadFull c2 (Uint32 b2) with ⟨_ | b3, c3⟩ <;>
    have k3 := ReadFull_writeSide c2 (Uint32 b2) <;> rw [h3] at k3 <;> simp only at k3 ⊢
  · exact k3.trans (k2.trans k1)
  rcases h4 : ReadFull c3 4 with ⟨_ | b4, c4⟩ <;> have k4 := ReadFull_writeSide c3 4 <;>
    rw [h4] at k4 <;> simp only at k4 ⊢
  · exact k4.trans (k3.trans (k2.trans k1))
  rcases h5 : ReadFull c4 (Uint32 b4) with ⟨_ | b5, c5⟩ <;>
    have k5 := ReadFull_writeSide c4 (Uint32 b4) <;> rw [h5] at k5 <;> simp only at k5 ⊢
  · exact k5.trans (k4.trans (k3.trans (k2.trans k1)))
  rcases h6 : ReadFull c5 32 with ⟨_ | b6, c6⟩ <;> have k6 := ReadFull_writeSide c5 32 <;>
    rw [h6] at k6 <;> simp only at k6 ⊢
  · exact k6.trans (k5.trans (k4.trans (k3.trans (k2.trans k1))))
  · exact k6.trans (k5.trans (k4.trans (k3.trans (k2.trans k1))))

theorem Conn.Write_closed (c : Conn) (b : Bytes) : (c.Write b).2.closed = c.closed := by
  unfold Conn.Write
  repeat' split
  all_goals rfl

theorem handleTCPClient_conn (cfg : ConnConfig) (conn : Conn) (fs : FS) :
    (handleTCPClient cfg conn fs).2.1 = (readMessage conn).2 := by
  rcases hread : readMessage conn with ⟨e | msg, conn'⟩
  · rw [handleTCPClient_read_error cfg conn conn' fs e hread]
  · simp only [handleTCPClient, hread]
    rcases GetFileType cfg msg.FileName with ⟨ext, path, valid⟩
    cases valid
    · rfl
    · simp only [Bool.not_true, Bool.false_eq_true, if_false]
      rcases MkdirAll fs (Join path ext) with ⟨_ | e, fs1⟩
      · simp only []
        cases CompareHash256 (Sum256 msg.Data) msg.Hash with
        | some e => rfl
        | none =>
          simp only []
          rcases CreateFile fs1 (Join (Join path ext) msg.FileName) msg with ⟨_ | e, fs2⟩ <;> rfl
      · rfl

theorem handleTCPClient_status (cfg : ConnConfig) (conn : Conn) (fs : FS) :
    (handleTCPClient cfg conn fs).1 = MsgSuccess ∨ (handleTCPClient cfg conn fs).1 = MsgFailure := by
  rcases hread : readMessage conn with ⟨e | msg, conn'⟩
  · rw [handleTCPClient_read_error cfg conn conn' fs e hread]
    exact Or.inr rfl
  · rcases handleTCPClient_decoded cfg conn conn' fs msg hread with
      (⟨h1, _⟩ | ⟨h1, _, _⟩) | ⟨h1, _⟩
    · exact Or.inr h1
    · exact Or.inr h1
    · exact Or.inl h1

theorem HandleTCP_conn (cfg : ConnConfig) (conn : Conn) (fs : FS) :
    (HandleTCP cfg conn fs).1 =
      ((readMessage conn).2.Write [(handleTCPClient cfg conn fs).1]).2 := by
  simp only [HandleTCP, sendTCPResponse, ← handleTCPClient_conn cfg conn fs]

theorem HandleTCP_closed (cfg : ConnConfig) (conn : Conn) (fs : FS) :
    (HandleTCP cfg conn fs).1.closed = conn.closed := by
  rw [HandleTCP_conn, Conn.Write_closed]
  exact congrArg (fun s => s.2.2) (readMessage_writeSide conn)

theorem HandleTCP_one_status (cfg : ConnConfig) (conn : Conn) (fs : FS)
    (hopen : conn.closed = false) (hquota : conn.writeQuota = none) :
    (HandleTCP cfg conn fs).1.written = conn.written ++ [[(handleTCPClient cfg conn fs).1]] := by
  have hs := readMessage_writeSide conn
  have h1 : (readMessage conn).2.written = conn.written := congrArg (fun s => s.1) hs
  have h2 : (readMessage conn).2.writeQuota = none :=
    (congrArg (fun s => s.2.1) hs).trans hquota
  have h3 : (readMessage conn).2.closed = false := (congrArg (fun s => s.2.2) hs).trans hopen
  rw [HandleTCP_conn, Conn.Write_accepting _ _ h3 h2, h1]

/-! ### stream decoding -/

theorem ReadFull_ok (c c' : Conn) (n : Nat) (b : Bytes)
    (h : ReadFull c n = (Except.ok b, c')) :
    c.incoming = b ++ c'.incoming ∧ b.length = n := by
  unfold ReadFull at h
  split at h
  · cases h
    simp_all
  · split at h
    · cases h
    · split at h
      · cases h
      · split at h
        · cases h
        · cases h
          simp only [List.take_append_drop, List.length_take, true_and]
          omega

theorem readMessage_ok (c c' : Conn) (msg : FileMessage)
    (h : readMessage c = (Except.ok msg, c')) :
    ∃ b0 l1 l2 hb : Bytes,
      c.incoming = b0 ++ (l1 ++ (msg.FileName ++ (l2 ++ (msg.Data ++ (hb ++ c'.incoming))))) ∧
      b0.length = 1 ∧ l1.length = 4 ∧ msg.FileName.length = Uint32 l1 ∧
      l2.length = 4 ∧ msg.Data.length = Uint32 l2 ∧ hb.length = 32 := by
  unfold readMessage at h
  rcases h1 : ReadFull c 1 with ⟨_ | b1, c1⟩ <;> rw [h1] at h <;> simp only at h
  · cases h
  rcases h2 : ReadFull c1 4 with ⟨_ | b2, c2⟩ <;> rw [h2] at h <;> simp only at h
  · cases h
  rcases h3 : ReadFull c2 (Uint32 b2) with ⟨_ | b3, c3⟩ <;> rw [h3] at h <;> simp only at h
  · cases h
  rcases h4 : ReadFull c3 4 with ⟨_ | b4, c4⟩ <;> rw [h4] at h <;> simp only at h
  · cases h
  rcases h5 : ReadFull c4 (Uint32 b4) with ⟨_ | b5, c5⟩ <;> rw [h5] at h <;> simp only at h
  · cases h
  rcases h6 : ReadFull c5 32 with ⟨_ | b6, c6⟩ <;> rw [h6] at h <;> simp only at h
  · cases h
  cases h
  obtain ⟨e1, n1⟩ := ReadFull_ok _ _ _ _ h1
  obtain ⟨e2, n2⟩ := ReadFull_ok _ _ _ _ h2
  obtain ⟨e3, n3⟩ := ReadFull_ok _ _ _ _ h3
  obtain ⟨e4, n4⟩ := ReadFull_ok _ _ _ _ h4
  obtain ⟨e5, n5⟩ := ReadFull_ok _ _ _ _ h5
  obtain ⟨e6, n6⟩ := ReadFull_ok _ _ _ _ h6
  refine ⟨b1, b2, b4, b6, ?_, n1, n2, n3, n4, n5, n6⟩
  rw [e1, e2, e3, e4, e5, e6]

theorem readMessage_strict_prefix (msg : FileMessage) (p : Bytes) (server : Conn)
    (hn : msg.FileName.length < 2 ^ 32) (hm : msg.Data.length < 2 ^ 32)
    (hp : p <+: [0] ++ (PutUint32 msg.FileName.length ++ (msg.FileName ++
      (PutUint32 msg.Data.length ++ (msg.Data ++ msg.Hash.val)))))
    (hlt : p.length < 41 + msg.FileName.length + msg.Data.length)
    (hin : server.incoming = p) :
    ∃ err conn', readMessage server = (Except.error err, conn') := by
  rcases hread : readMessage server with ⟨err | msg', conn'⟩
  · exact ⟨err, conn', rfl⟩
  · exfalso
    obtain ⟨b0, l1, l2, hb, hinc, n0, n1, nf, n2, nd, nh⟩ := readMessage_ok _ _ _ hread
    obtain ⟨t, ht⟩ := hp
    rw [← hin, hinc] at ht
    simp only [List.append_assoc] at ht
    have hlen : p.length = 1 + 4 + msg'.FileName.length + 4 + msg'.Data.length + 32 +
        conn'.incoming.length := by
      rw [← hin, hinc]
      simp only [List.length_append]
      omega
    obtain ⟨_, ht1⟩ := List.append_inj ht (by rw [n0]; rfl)
    obtain ⟨hl1, ht2⟩ := List.append_inj ht1 (by rw [n1, PutUint32_length])
    have hf : msg'.FileName.length = msg.FileName.length := by
      rw [nf, hl1, Uint32_PutUint32 _ hn]
    obtain ⟨_, ht3⟩ := List.append_inj ht2 hf
    obtain ⟨hl2, _⟩ := List.append_inj ht3 (by rw [n2, PutUint32_length])
    have hd : msg'.Data.length = msg.Data.length := by
      rw [nd, hl2, Uint32_PutUint32 _ hm]
    omega

/-! ### classification -/

theorem contains_of_mem (value : Bytes) (array : List Bytes) (h : value ∈ array) :
    contains value array = value := by
  induction array with
  | nil => cases h
  | cons v rest ih =>
    unfold contains
    by_cases hv : value = v
    · rw [if_pos hv, hv]
    · rw [if_neg hv]
      rcases List.mem_cons.mp h with h1 | h1
      · exact absurd h1 hv
      · exact ih h1

theorem contains_of_not_mem (value : Bytes) (array : List Bytes) (h : value ∉ array) :
    contains value array = [] := by
  induction array with
  | nil => rfl
  | cons v rest ih =>
    unfold contains
    have hv : value ≠ v := fun e => h (e ▸ List.mem_cons_self _ _)
    rw [if_neg hv]
    exact ih (fun hm => h (List.mem_cons_of_mem _ hm))

theorem eq_contains_iff (value : Bytes) (array : List Bytes) (hne : value ≠ []) :
    value = contains value array ↔ value ∈ array := by
  by_cases h : value ∈ array
  · simp [contains_of_mem value array h, h]
  · rw [contains_of_not_mem value array h]
    simp [h, hne]

/-- For a file name with a non-empty extension `GetFileType` is a first-match lookup in the
four tables. -/
theorem GetFileType_of_ext_ne_nil (cfg : ConnConfig) (fileName : Bytes)
    (hne : Ext fileName ≠ []) :
    GetFileType cfg fileName =
      if Ext fileName ∈ cfg.ImageExtensions then (Ext fileName, cfg.ImagePath, true)
      else if Ext fileName ∈ cfg.AudioExtensions then (Ext fileName, cfg.AudioPath, true)
      else if Ext fileName ∈ cfg.VideoExtensions then (Ext fileName, cfg.VideoPath, true)
      else if Ext fileName ∈ cfg.TextExtensions then (Ext fileName, cfg.TextPath, true)
      else (Ext fileName, [], false) := by
  simp only [GetFileType, eq_contains_iff _ _ hne]

/-- A file name without extension always takes the first `case` of the `switch`: `contains`
reports "absent" by the empty string, which is what `ext` is. -/
theorem GetFileType_of_ext_nil (cfg : ConnConfig) (fileName : Bytes)
    (h : Ext fileName = []) :
    GetFileType cfg fileName = ([], cfg.ImagePath, true) := by
  have hc : ([] : Bytes) = contains [] cfg.ImageExtensions := by
    by_cases hm : ([] : Bytes) ∈ cfg.ImageExtensions
    · exact (contains_of_mem _ _ hm).symm
    · exact (contains_of_not_mem _ _ hm).symm
  simp only [GetFileType, h]
  rw [if_pos hc]

/-! ### datagram socket state -/

theorem readUDPMessage_error_addr (chunk : Nat) (conn conn' : UDPConn) (n : Nat)
    (addr : Option UDPAddr) (err : IOError)
    (h : readUDPMessage chunk conn = some (⟨n, addr, Except.error err⟩, conn')) :
    addr = none := by
  unfold readUDPMessage at h
  rcases h1 : conn.ReadFromUDP 1 with ⟨_ | ⟨b1, a⟩, c1⟩ <;> rw [h1] at h <;> simp only at h
  · cases h; rfl
  rcases h2 : ReadFullUDP c1 4 with ⟨_ | b2, c2⟩ <;> rw [h2] at h <;> simp only at h
  · cases h; rfl
  rcases h3 : ReadFullUDP c2 (Uint32 b2) with ⟨_ | b3, c3⟩ <;> rw [h3] at h <;> simp only at h
  · cases h; rfl
  rcases h4 : ReadFullUDP c3 4 with ⟨_ | b4, c4⟩ <;> rw [h4] at h <;> simp only at h
  · cases h; rfl
  rcases h5 : readChunks chunk (Uint32 b4) (Uint32 b4) c4 [] 0 with
    _ | ⟨_ | b5, n5, c5⟩ <;> rw [h5] at h <;> simp only at h
  · cases h
  · cases h; rfl
  rcases h6 : ReadFullUDP c5 32 with ⟨_ | b6, c6⟩ <;> rw [h6] at h <;> simp only at h
  · cases h; rfl
  · cases h

theorem ReadFullUDP_outbox (c : UDPConn) (n : Nat) : (ReadFullUDP c n).2.outbox = c.outbox := by
  rfl

theorem readChunks_outbox (chunk total : Nat) :
    ∀ (fuel : Nat) (conn : UDPConn) (data : Bytes) (size : Nat) r,
      readChunks chunk total fuel conn data size = some r → r.2.2.outbox = conn.outbox := by
  intro fuel
  induction fuel with
  | zero =>
    intro conn data size r h
    unfold readChunks at h
    split at h
    · cases h
    · cases h; rfl
  | succ fuel ih =>
    intro conn data size r h
    unfold readChunks at h
    split at h
    · simp only [] at h
      rcases hr : ReadFullUDP conn (if total - size < chunk then total - size else chunk) with
        ⟨_ | b, c1⟩ <;> rw [hr] at h <;> simp only at h
      · cases h
        have := ReadFullUDP_outbox conn (if total - size < chunk then total - size else chunk)
        rw [hr] at this
        exact this
      · have h1 := ih _ _ _ _ h
        have := ReadFullUDP_outbox conn (if total - size < chunk then total - size else chunk)
        rw [hr] at this
        exact h1.trans this
    · cases h; rfl

theorem readUDPMessage_outbox (chunk : Nat) (conn : UDPConn) r
    (h : readUDPMessage chunk conn = some r) : r.2.outbox = conn.outbox := by
  unfold readUDPMessage at h
  have e1 : (conn.ReadFromUDP 1).2.outbox = conn.outbox := by
    unfold UDPConn.ReadFromUDP
    split <;> rfl
  rcases h1 : conn.ReadFromUDP 1 with ⟨_ | ⟨b1, a⟩, c1⟩ <;> rw [h1] at h e1 <;>
    simp only at h e1
  · cases h; exact e1
  have e2 := ReadFullUDP_outbox c1 4
  rcases h2 : ReadFullUDP c1 4 with ⟨_ | b2, c2⟩ <;> rw [h2] at h e2 <;> simp only at h e2
  · cases h; exact e2.trans e1
  have e3 := ReadFullUDP_outbox c2 (Uint32 b2)
  rcases h3 : ReadFullUDP c2 (Uint32 b2) with ⟨_ | b3, c3⟩ <;> rw [h3] at h e3 <;>
    simp only at h e3
  · cases h; exact e3.trans (e2.trans e1)
  have e4 := ReadFullUDP_outbox c3 4
  rcases h4 : ReadFullUDP c3 4 with ⟨_ | b4, c4⟩ <;> rw [h4] at h e4 <;> simp only at h e4
  · cases h; exact e4.trans (e3.trans (e2.trans e1))
  rcases h5 : readChunks chunk (Uint32 b4) (Uint32 b4) c4 [] 0 with
    _ | ⟨_ | b5, n5, c5⟩ <;> rw [h5] at h <;> simp only at h
  · cases h
  · cases h
    exact (readChunks_outbox _ _ _ _ _ _ _ h5).trans (e4.trans (e3.trans (e2.trans e1)))
  have e5 := readChunks_outbox _ _ _ _ _ _ _ h5
  simp only at e5
  have e6 := ReadFullUDP_outbox c5 32
  rcases h6 : ReadFullUDP c5 32 with ⟨_ | b6, c6⟩ <;> rw [h6] at h e6 <;> simp only at h e6
  · cases h; exact e6.trans (e5.trans (e4.trans (e3.trans (e2.trans e1))))
  · cases h; exact e6.trans (e5.trans (e4.trans (e3.trans (e2.trans e1))))

/-- When decoding fails, `HandleUDP` sends nothing: `readUDPMessage` returns a `nil` address
with every error, and `HandleUDP` replies only to a non-`nil` address. -/
theorem HandleUDP_decode_error_silent (cfg : ConnConfig) (chunk : Nat) (conn conn' : UDPConn)
    (fs : FS) (n : Nat) (addr : Option UDPAddr) (err : IOError)
    (h : readUDPMessage chunk conn = some (⟨n, addr, Except.error err⟩, conn')) :
    HandleUDP cfg chunk conn fs = some (conn', fs) ∧ conn'.outbox = conn.outbox := by
  have ha := readUDPMessage_error_addr chunk conn conn' n addr err h
  subst ha
  refine ⟨?_, readUDPMessage_outbox chunk conn _ h⟩
  simp only [HandleUDP, handleUDPClient_read_error cfg chunk conn conn' fs n none err h]

/-- The client closes its connection on every return of `SendTCPFile`. -/
theorem SendTCPFile_closes (conn : Conn) (msg : FileMessage) :
    (SendTCPFile conn msg).2.closed = true := by
  unfold SendTCPFile
  repeat' split
  all_goals rfl

/-! ### termination of the two loops -/

theorem sendChunks_isSome (c : Nat) (data : Bytes) :
    ∀ (fuel i : Nat) (conn : UDPConn), data.length ≤ i + fuel * c →
      (sendChunks c data fuel i conn).isSome = true := by
  intro fuel
  induction fuel with
  | zero =>
    intro i conn hfuel
    have hle : ¬ i < data.length := by omega
    simp [sendChunks, hle]
  | succ fuel ih =>
    intro i conn hfuel
    unfold sendChunks
    split
    · simp only []
      rcases conn.Write (slice data i (if i + c > data.length then data.length else i + c)) with
        ⟨_ | e, c1⟩
      · simp only []
        apply ih
        rw [Nat.succ_mul] at hfuel
        omega
      · rfl
    · rfl

/-- The chunk loop of `sendUDPMessage` always ends: the result is never `none`. -/
theorem sendUDPMessage_terminates (conn : UDPConn) (msg : FileMessage) :
    (sendUDPMessage conn msg).isSome = true := by
  unfold sendUDPMessage
  rcases conn.Write [0] with ⟨_ | e, c1⟩
  · simp only []
    rcases c1.Write (PutUint32 (uint32 msg.FileName.length)) with ⟨_ | e, c2⟩
    · simp only []
      rcases c2.Write msg.FileName with ⟨_ | e, c3⟩
      · simp only []
        rcases c3.Write (PutUint32 (uint32 msg.Data.length)) with ⟨_ | e, c4⟩
        · simp only []
          have h := sendChunks_isSome 1024 msg.Data msg.Data.length 0 c4 (by omega)
          rcases hs : sendChunks 1024 msg.Data msg.Data.length 0 c4 with _ | ⟨_ | e, c5⟩
          · rw [hs] at h
            cases h
          · simp only []
            rcases c5.Write msg.Hash.val with ⟨_ | e, c6⟩ <;> rfl
          · rfl
        · rfl
      · rfl
    · rfl
  · rfl

theorem readFullLoop_ok_length :
    ∀ (q : List Datagram) (n : Nat) (buf b : Bytes) (q' : List Datagram),
      readFullLoop q n buf = (Except.ok b, q') → b.length = buf.length + n := by
  intro q
  induction q with
  | nil =>
    intro n buf b q' h
    cases n with
    | zero =>
      rw [readFullLoop_zero] at h
      cases h
      rfl
    | succ n =>
      simp only [readFullLoop] at h
      cases h
  | cons d q ih =>
    intro n buf b q' h
    cases n with
    | zero =>
      rw [readFullLoop_zero] at h
      cases h
      rfl
    | succ n =>
      simp only [readFullLoop] at h
      have := ih _ _ _ _ h
      simp only [List.length_append, List.length_take] at this
      omega

theorem readChunks_isSome (chunk total : Nat) (hchunk : 0 < chunk) :
    ∀ (fuel : Nat) (conn : UDPConn) (data : Bytes) (size : Nat), total - size ≤ fuel →
      (readChunks chunk total fuel conn data size).isSome = true := by
  intro fuel
  induction fuel with
  | zero =>
    intro conn data size hfuel
    have hle : ¬ size < total := by omega
    simp [readChunks, hle]
  | succ fuel ih =>
    intro conn data size hfuel
    unfold readChunks
    split
    · simp only []
      rcases hr : ReadFullUDP conn (if total - size < chunk then total - size else chunk) with
        ⟨_ | b, c1⟩
      · rfl
      · simp only []
        apply ih
        rw [ReadFullUDP_eq] at hr
        have hlen := readFullLoop_ok_length conn.inbox _ [] b c1.inbox (by
          rw [Prod.ext_iff] at hr ⊢
          simp only at hr ⊢
          exact ⟨hr.1, by rw [← hr.2]⟩)
        simp only [List.length_nil, Nat.zero_add] at hlen
        rw [hlen]
        split <;> omega
    · rfl

/-- On the in-memory transport, where a read on an exhausted queue reports an error instead
of waiting, `readUDPMessage` with a positive chunk size never runs out of fuel: the result
is never `none`. -/
theorem readUDPMessage_terminates (chunk : Nat) (hchunk : 0 < chunk) (conn : UDPConn) :
    (readUDPMessage chunk conn).isSome = true := by
  unfold readUDPMessage
  rcases conn.ReadFromUDP 1 with ⟨_ | ⟨b1, a⟩, c1⟩
  · rfl
  simp only []
  rcases ReadFullUDP c1 4 with ⟨_ | b2, c2⟩
  · rfl
  simp only []
  rcases ReadFullUDP c2 (Uint32 b2) with ⟨_ | b3, c3⟩
  · rfl
  simp only []
  rcases ReadFullUDP c3 4 with ⟨_ | b4, c4⟩
  · rfl
  simp only []
  have h := readChunks_isSome chunk (Uint32 b4) hchunk (Uint32 b4) c4 [] 0 (by omega)
  rcases hs : readChunks chunk (Uint32 b4) (Uint32 b4) c4 [] 0 with _ | ⟨_ | b5, n5, c5⟩
  · rw [hs] at h
    cases h
  · rfl
  · simp only []
    rcases ReadFullUDP c5 32 with ⟨_ | b6, c6⟩ <;> rfl

/-! ## Read sizes of the reassembly loop: lemmas -/

theorem readChunksTrace_erase (chunk total : Nat) :
    ∀ (fuel : Nat) (conn : UDPConn) (data : Bytes) (size : Nat) (reads : List Nat),
      (readChunksTrace chunk total fuel conn data size reads).map
        (fun r => (r.1, r.2.1, r.2.2.1)) = readChunks chunk total fuel conn data size := by
  intro fuel
  induction fuel with
  | zero =>
    intro conn data size reads
    unfold readChunksTrace readChunks
    split <;> rfl
  | succ fuel ih =>
    intro conn data size reads
    unfold readChunksTrace readChunks
    split
    · simp only []
      rcases ReadFullUDP conn (if total - size < chunk then total - size else chunk) with
        ⟨_ | b, c1⟩
      · rfl
      · exact ih _ _ _ _
    · rfl

theorem chunkReads_step (C R : Nat) (hC : 0 < C) (hR : 0 < R) :
    chunkReads C R =
      (if R < C then R else C) :: chunkReads C (R - (if R < C then R else C)) := by
  unfold chunkReads
  by_cases h : R < C
  · rw [if_pos h, Nat.div_eq_of_lt h, Nat.mod_eq_of_lt h, if_neg (by omega), Nat.sub_self]
    simp
  · rw [if_neg h]
    have h1 : R / C = (R - C) / C + 1 := by
      have : R = (R - C) + C := by omega
      conv_lhs => rw [this]
      rw [Nat.add_div_right _ hC]
    have h2 : R % C = (R - C) % C := by
      have : R = (R - C) + C := by omega
      conv_lhs => rw [this]
      rw [Nat.add_mod_right]
    rw [h1, h2, List.replicate_succ, List.cons_append]

theorem chunkReads_zero (C : Nat) : chunkReads C 0 = [] := by
  simp [chunkReads]

theorem ReadFullUDP_ok_length (c c' : UDPConn) (n : Nat) (b : Bytes)
    (h : ReadFullUDP c n = (Except.ok b, c')) : b.length = n := by
  rw [ReadFullUDP_eq] at h
  have hlen := readFullLoop_ok_length c.inbox n [] b (readFullLoop c.inbox n []).2 (by
    rw [Prod.ext_iff] at h ⊢
    exact ⟨h.1, rfl⟩)
  simpa using hlen

theorem readChunksTrace_reads (C T : Nat) (hC : 0 < C) :
    ∀ (fuel : Nat) (conn : UDPConn) (data : Bytes) (size : Nat) (reads : List Nat) r,
      readChunksTrace C T fuel conn data size reads = some r → size ≤ T →
      reads <+: r.2.2.2 ∧ r.2.2.2 <+: reads ++ chunkReads C (T - size) ∧
      (∀ res, r.1 = Except.ok res →
        r.2.2.2 = reads ++ chunkReads C (T - size) ∧ r.2.1 = T ∧
        res.length = data.length + (T - size)) := by
  have hdone : ∀ (conn : UDPConn) (data : Bytes) (size : Nat) (reads : List Nat)
      (r : Except IOError Bytes × Nat × UDPConn × List Nat),
      ¬ size < T → size ≤ T →
      some (Except.ok data, size, conn, reads) = some r →
      reads <+: r.2.2.2 ∧ r.2.2.2 <+: reads ++ chunkReads C (T - size) ∧
      (∀ res, r.1 = Except.ok res →
        r.2.2.2 = reads ++ chunkReads C (T - size) ∧ r.2.1 = T ∧
        res.length = data.length + (T - size)) := by
    intro conn data size reads r hlt hle h
    cases h
    have hs : T - size = 0 := by omega
    rw [hs, chunkReads_zero, List.append_nil]
    refine ⟨List.prefix_refl _, List.prefix_refl _, ?_⟩
    intro res hres
    cases hres
    exact ⟨rfl, by show size = T; omega, rfl⟩
  intro fuel
  induction fuel with
  | zero =>
    intro conn data size reads r h hle
    unfold readChunksTrace at h
    split at h
    · cases h
    · exact hdone conn data size reads r (by assumption) hle h
  | succ fuel ih =>
    intro conn data size reads r h hle
    unfold readChunksTrace at h
    split at h
    · rename_i hlt
      simp only [] at h
      have hstep := chunkReads_step C (T - size) hC (by omega)
      rcases hr : ReadFullUDP conn (if T - size < C then T - size else C) with ⟨e | b, c1⟩
      · rw [hr] at h
        cases h
        refine ⟨List.prefix_append _ _, ?_, ?_⟩
        · rw [hstep]
          exact ⟨chunkReads C (T - size - (if T - size < C then T - size else C)), by simp⟩
        · intro res hres
          cases hres
      · rw [hr] at h
        simp only [] at h
        have hb := ReadFullUDP_ok_length _ _ _ _ hr
        have hle2 : size + b.length ≤ T := by
          rw [hb]
          split <;> omega
        obtain ⟨h1, h2, h3⟩ := ih _ _ _ _ _ h hle2
        have hrem : T - (size + b.length) =
            T - size - (if T - size < C then T - size else C) := by
          rw [hb]
          omega
        rw [hrem] at h2 h3
        have happ : reads ++ [if T - size < C then T - size else C] ++
            chunkReads C (T - size - (if T - size < C then T - size else C)) =
            reads ++ chunkReads C (T - size) := by
          rw [hstep]
          simp
        rw [happ] at h2 h3
        refine ⟨(List.prefix_append _ _).trans h1, h2, ?_⟩
        intro res hres
        obtain ⟨t1, t2, t3⟩ := h3 res hres
        refine ⟨t1, t2, ?_⟩
        rw [t3, List.length_append, hb]
        split <;> omega
    · exact hdone conn data size reads r (by assumption) hle h

theorem readChunksTrace_isSome (C T : Nat) (hC : 0 < C) (fuel : Nat) (conn : UDPConn)
    (data : Bytes) (size : Nat) (reads : List Nat) (hfuel : T - size ≤ fuel) :
    (readChunksTrace C T fuel conn data size reads).isSome = true := by
  have h := readChunks_isSome C T hC fuel conn data size hfuel
  rw [← readChunksTrace_erase C T fuel conn data size reads] at h
  simpa using h

theorem readChunksTrace_aligned (a : UDPAddr) (data : Bytes) (chunk : Nat) (hchunk : 0 < chunk)
    (hal : 1024 ∣ chunk ∨ data.length ≤ chunk) (q : List Datagram) (conn : UDPConn)
    (hin : conn.inbox = (chunksOf 1024 data).map (Datagram.mk a) ++ q) :
    readChunksTrace chunk data.length data.length conn [] 0 [] =
      some (Except.ok data, data.length, { conn with inbox := q },
        chunkReads chunk data.length) := by
  have h1 := readChunks_aligned a data chunk hchunk hal q data.length 0 conn (Nat.zero_le _)
    (Or.inl (Nat.dvd_zero _)) (by omega) (by simpa using hin)
  simp only [List.take_zero] at h1
  have h2 := readChunksTrace_erase chunk data.length data.length conn [] 0 []
  rw [h1] at h2
  rcases hr : readChunksTrace chunk data.length data.length conn [] 0 [] with
    _ | ⟨res, n, c', trace⟩
  · rw [hr] at h2
    cases h2
  · rw [hr] at h2
    simp only [Option.map_some', Option.some.injEq, Prod.mk.injEq] at h2
    obtain ⟨e1, e2, e3⟩ := h2
    subst e1 e2 e3
    have h3 := (readChunksTrace_reads chunk data.length hchunk _ _ _ _ _ _ hr
      (Nat.zero_le _)).2.2 data rfl
    simp only [List.nil_append, Nat.sub_zero] at h3
    rw [h3.1]

theorem readUDPMessageTrace_erase (chunk : Nat) (conn : UDPConn) :
    (readUDPMessageTrace chunk conn).map (fun r => (r.1, r.2.1)) =
      readUDPMessage chunk conn := by
  unfold readUDPMessageTrace readUDPMessage
  rcases conn.ReadFromUDP 1 with ⟨_ | ⟨b1, a⟩, c1⟩
  · rfl
  simp only []
  rcases ReadFullUDP c1 4 with ⟨_ | b2, c2⟩
  · rfl
  simp only []
  rcases ReadFullUDP c2 (Uint32 b2) with ⟨_ | b3, c3⟩
  · rfl
  simp only []
  rcases ReadFullUDP c3 4 with ⟨_ | b4, c4⟩
  · rfl
  simp only []
  have he := readChunksTrace_erase chunk (Uint32 b4) (Uint32 b4) c4 [] 0 []
  rcases hs : readChunksTrace chunk (Uint32 b4) (Uint32 b4) c4 [] 0 [] with
    _ | ⟨_ | b5, n5, c5, tr⟩
  · rw [hs] at he
    rw [← he]
    rfl
  · rw [hs] at he
    rw [← he]
    rfl
  · rw [hs] at he
    rw [← he]
    simp only [Option.map_some']
    rcases ReadFullUDP c5 32 with ⟨_ | b6, c6⟩ <;> rfl

/-- The datagrams of one frame as they arrive from the sender at address `a`: start marker,
name length, name, total length, the payload in pieces of 1024 bytes, digest. -/
theorem deliver_sendUDPMessage (client : UDPConn) (msg : FileMessage)
    (hquota : client.writeQuota = none) (hfresh : client.outbox = [])
    (hn : msg.FileName.length < 2 ^ 32) (hm : msg.Data.length < 2 ^ 32) :
    ∃ client', sendUDPMessage client msg = some (none, client') ∧
      deliver client.laddr client'.outbox =
        ⟨client.laddr, [0]⟩ :: ⟨client.laddr, PutUint32 msg.FileName.length⟩ ::
          ⟨client.laddr, msg.FileName⟩ :: ⟨client.laddr, PutUint32 msg.Data.length⟩ ::
            ((chunksOf 1024 msg.Data).map (Datagram.mk client.laddr) ++
              [⟨client.laddr, msg.Hash.val⟩]) := by
  refine ⟨_, sendUDPMessage_accepting client msg hquota, ?_⟩
  simp only [hfresh, List.nil_append, deliver, uint32_of_lt _ hn, uint32_of_lt _ hm,
    List.map_append, List.map_cons, List.map_nil, List.map_map, List.cons_append,
    List.append_assoc]
  have hmap : (List.map ((fun d => Datagram.mk client.laddr d.payload) ∘ Datagram.mk client.raddr)
      (chunksOf 1024 msg.Data)) = (chunksOf 1024 msg.Data).map (Datagram.mk client.laddr) := by
    apply List.map_congr_left
    intro p _
    rfl
  rw [hmap]

theorem readUDPMessageTrace_frame (a : UDPAddr) (msg : FileMessage) (chunk : Nat)
    (rest : List Datagram) (server : UDPConn)
    (hn : msg.FileName.length < 2 ^ 32) (hm : msg.Data.length < 2 ^ 32)
    (hchunk : 0 < chunk) (hal : 1024 ∣ chunk ∨ msg.Data.length ≤ chunk)
    (hin : server.inbox =
      ⟨a, [0]⟩ :: ⟨a, PutUint32 msg.FileName.length⟩ :: ⟨a, msg.FileName⟩ ::
        ⟨a, PutUint32 msg.Data.length⟩ ::
          ((chunksOf 1024 msg.Data).map (Datagram.mk a) ++ ⟨a, msg.Hash.val⟩ :: rest)) :
    readUDPMessageTrace chunk server =
      some (⟨msg.Data.length, some a, Except.ok msg⟩, { server with inbox := rest },
        chunkReads chunk msg.Data.length) := by
  have hh := msg.Hash.property
  have hhne : msg.Hash.val ≠ [] := by
    intro h0
    rw [h0] at hh
    cases hh
  have r1 : server.ReadFromUDP 1 = (Except.ok ([0], a), { server with inbox :=
      ⟨a, PutUint32 msg.FileName.length⟩ :: ⟨a, msg.FileName⟩ ::
        ⟨a, PutUint32 msg.Data.length⟩ ::
          ((chunksOf 1024 msg.Data).map (Datagram.mk a) ++ ⟨a, msg.Hash.val⟩ :: rest) }) := by
    simp only [UDPConn.ReadFromUDP, hin]
    rfl
  have r2 := ReadFullUDP_one { server with inbox :=
      ⟨a, PutUint32 msg.FileName.length⟩ :: ⟨a, msg.FileName⟩ ::
        ⟨a, PutUint32 msg.Data.length⟩ ::
          ((chunksOf 1024 msg.Data).map (Datagram.mk a) ++ ⟨a, msg.Hash.val⟩ :: rest) } a
    (PutUint32 msg.FileName.length) _ (by simp [PutUint32]) rfl
  obtain ⟨c1, r3, r4⟩ := ReadFullUDP_name { server with inbox :=
      ⟨a, msg.FileName⟩ :: ⟨a, PutUint32 msg.Data.length⟩ ::
          ((chunksOf 1024 msg.Data).map (Datagram.mk a) ++ ⟨a, msg.Hash.val⟩ :: rest) } a
    msg.FileName (PutUint32 msg.Data.length) _ (PutUint32_length _) rfl
  have r5 := readChunksTrace_aligned a msg.Data chunk hchunk hal (⟨a, msg.Hash.val⟩ :: rest)
    { server with inbox := (chunksOf 1024 msg.Data).map (Datagram.mk a) ++
        (⟨a, msg.Hash.val⟩ :: rest) } rfl
  have r6 := ReadFullUDP_one { server with inbox := ⟨a, msg.Hash.val⟩ :: rest }
    a msg.Hash.val rest hhne rfl
  rw [PutUint32_length] at r2
  rw [hh] at r6
  simp only [readUDPMessageTrace, r1, r2, Uint32_PutUint32 _ hn, r3, r4,
    Uint32_PutUint32 _ hm, r5, r6, Hash32_fill_val]

/-- Function `ReadConfigFile` leaves the package variable `chunkSize` as it was. -/
theorem ReadConfigFile_chunkSize (file : ConfigFile) (localIP : Except IOError Bytes)
    (g : Globals) : (ReadConfigFile file localIP g).2.chunkSize = g.chunkSize := by
  cases file with
  | absent => rfl
  | malformed => rfl
  | decoded config =>
    simp only [ReadConfigFile]
    split <;> rfl

/-! ## Cleaned paths: lemmas -/

theorem Clean_eq_render (path : Bytes) (h : path ≠ []) :
    Clean path = cleanRender (decide (path.head? = some Separator))
      ((splitSep path).foldl (cleanStep (decide (path.head? = some Separator))) []) := by
  simp only [Clean, cleanRender, if_neg h, decide_eq_true_eq]

theorem splitSep_ne_nil (p : Bytes) : splitSep p ≠ [] := by
  induction p with
  | nil => simp [splitSep]
  | cons b rest ih =>
    unfold splitSep
    split
    · simp
    · split
      · simp
      · simp

theorem splitSep_append_sep (a b : Bytes) :
    splitSep (a ++ Separator :: b) = splitSep a ++ splitSep b := by
  induction a with
  | nil => simp [splitSep]
  | cons x a ih =>
    rw [List.cons_append]
    by_cases hx : x = Separator
    · subst hx
      simp only [splitSep, if_true, ih, List.cons_append]
    · simp only [splitSep, if_neg hx, ih]
      rcases hs : splitSep a with _ | ⟨e, es⟩
      · exact absurd hs (splitSep_ne_nil a)
      · simp

theorem splitSep_of_no_sep (e : Bytes) (h : Separator ∉ e) : splitSep e = [e] := by
  induction e with
  | nil => rfl
  | cons x e ih =>
    have hx : x ≠ Separator := fun hx => h (hx ▸ List.mem_cons_self _ _)
    have he : Separator ∉ e := fun hm => h (List.mem_cons_of_mem _ hm)
    simp only [splitSep, if_neg hx, ih he]

theorem splitSep_no_sep (p : Bytes) : ∀ e ∈ splitSep p, Separator ∉ e := by
  induction p with
  | nil => simp [splitSep]
  | cons b rest ih =>
    unfold splitSep
    split
    · intro e he
      rcases List.mem_cons.mp he with rfl | he
      · simp
      · exact ih e he
    · rename_i hb
      rcases hs : splitSep rest with _ | ⟨e0, es⟩
      · intro e he
        simp only [List.mem_singleton] at he
        subst he
        simp [Ne.symm hb]
      · intro e he
        rw [hs] at ih
        simp only [List.mem_cons] at he
        rcases he with rfl | he
        · intro hm
          rcases List.mem_cons.mp hm with h1 | h1
          · exact hb h1.symm
          · exact ih e0 (List.mem_cons_self _ _) h1
        · exact ih e (List.mem_cons_of_mem _ he)

theorem intercalate_cons_cons (e e' : Bytes) (rest : List Bytes) :
    List.intercalate [Separator] (e :: e' :: rest) =
      e ++ Separator :: List.intercalate [Separator] (e' :: rest) := by
  simp [List.intercalate, List.intersperse]

theorem intercalate_singleton (e : Bytes) : List.intercalate [Separator] [e] = e := by
  simp [List.intercalate, List.intersperse]

theorem intercalate_append_singleton (L : List Bytes) (e : Bytes) (hL : L ≠ []) :
    List.intercalate [Separator] (L ++ [e]) =
      List.intercalate [Separator] L ++ Separator :: e := by
  induction L with
  | nil => exact absurd rfl hL
  | cons x L ih =>
    cases L with
    | nil => simp [intercalate_cons_cons, intercalate_singleton]
    | cons y L =>
      rw [List.cons_append, List.cons_append, intercalate_cons_cons, ← List.cons_append,
        ih (by simp), intercalate_cons_cons]
      simp

theorem splitSep_intercalate (L : List Bytes) (hL : L ≠ []) (hs : ∀ e ∈ L, Separator ∉ e) :
    splitSep (List.intercalate [Separator] L) = L := by
  induction L with
  | nil => exact absurd rfl hL
  | cons x L ih =>
    cases L with
    | nil =>
      rw [intercalate_singleton]
      exact splitSep_of_no_sep x (hs x (List.mem_cons_self _ _))
    | cons y L =>
      rw [intercalate_cons_cons, splitSep_append_sep,
        splitSep_of_no_sep x (hs x (List.mem_cons_self _ _)),
        ih (by simp) (fun e he => hs e (List.mem_cons_of_mem _ he))]
      rfl

theorem foldl_cleanStep_dotdots (k j : Nat) :
    (List.replicate k [Dot, Dot]).foldl (cleanStep false) (List.replicate j [Dot, Dot]) =
      List.replicate (j + k) [Dot, Dot] := by
  induction k generalizing j with
  | zero => rfl
  | succ k ih =>
    rw [List.replicate_succ, List.foldl_cons]
    have hstep : cleanStep false (List.replicate j [Dot, Dot]) [Dot, Dot] =
        List.replicate (j + 1) [Dot, Dot] := by
      cases j with
      | zero => decide
      | succ j =>
        rw [List.replicate_succ]
        simp only [cleanStep]
        rw [if_neg (by decide), if_neg (by decide)]
        simp [List.replicate_succ]
    rw [hstep, ih]
    congr 1
    omega

theorem cleanStep_plain (rooted : Bool) (out : List Bytes) (e : Bytes) (he : PlainName e) :
    cleanStep rooted out e = e :: out := by
  obtain ⟨h1, _, h3, h4⟩ := he
  simp only [cleanStep, if_neg h1, if_neg h3, if_neg h4]

theorem foldl_cleanStep_plains (rooted : Bool) (L : List Bytes) (hL : ∀ e ∈ L, PlainName e)
    (acc : List Bytes) : L.foldl (cleanStep rooted) acc = L.reverse ++ acc := by
  induction L generalizing acc with
  | nil => rfl
  | cons x L ih =>
    rw [List.foldl_cons, cleanStep_plain rooted acc x (hL x (List.mem_cons_self _ _)),
      ih (fun e he => hL e (List.mem_cons_of_mem _ he))]
    simp

theorem PlainName_of_mem_reverse (plains : List Bytes) (h : ∀ e ∈ plains, PlainName e) :
    ∀ e ∈ plains.reverse, PlainName e := fun e he => h e (List.mem_reverse.mp he)

/-- Reading a cleaned path again gives the stack it was rendered from. -/
theorem foldl_cleanStep_render (rooted : Bool) (out : List Bytes) (h : CleanStack rooted out) :
    (splitSep (cleanRender rooted out)).foldl (cleanStep rooted) [] = out := by
  obtain ⟨k, plains, rfl, hk, hp⟩ := h
  have hsepfree : ∀ e ∈ (plains ++ List.replicate k [Dot, Dot]).reverse, Separator ∉ e := by
    intro e he
    rw [List.mem_reverse, List.mem_append] at he
    rcases he with he | he
    · exact (hp e he).2.1
    · rw [List.eq_of_mem_replicate he]
      decide
  have hfold : ((plains ++ List.replicate k [Dot, Dot]).reverse).foldl (cleanStep rooted) [] =
      plains ++ List.replicate k [Dot, Dot] := by
    rw [List.reverse_append, List.reverse_replicate, List.foldl_append]
    have h1 : (List.replicate k [Dot, Dot]).foldl (cleanStep rooted) [] =
        List.replicate k [Dot, Dot] := by
      cases rooted with
      | true =>
        rw [hk rfl]
        rfl
      | false =>
        have := foldl_cleanStep_dotdots k 0
        simpa using this
    rw [h1, foldl_cleanStep_plains rooted _ (PlainName_of_mem_reverse plains hp)]
    simp
  by_cases hnil : plains ++ List.replicate k [Dot, Dot] = []
  · rw [hnil]
    cases rooted <;> decide
  · have hrev : (plains ++ List.replicate k [Dot, Dot]).reverse ≠ [] := by
      intro h0
      exact hnil (List.reverse_eq_nil_iff.mp h0)
    have hsplit := splitSep_intercalate _ hrev hsepfree
    have hbody : List.intercalate [Separator]
        (plains ++ List.replicate k [Dot, Dot]).reverse ≠ [] := by
      intro h0
      rw [h0] at hsplit
      have hl : (plains ++ List.replicate k [Dot, Dot]).reverse = [[]] := hsplit.symm
      have hmem : ([] : Bytes) ∈ plains ++ List.replicate k [Dot, Dot] := by
        rw [← List.mem_reverse, hl]
        exact List.mem_singleton.mpr rfl
      rcases List.mem_append.mp hmem with h1 | h1
      · exact (hp _ h1).1 rfl
      · have := List.eq_of_mem_replicate h1
        cases this
    cases rooted with
    | true =>
      simp only [cleanRender, if_true]
      rw [show splitSep (Separator :: List.intercalate [Separator]
          (plains ++ List.replicate k [Dot, Dot]).reverse) =
          [] :: splitSep (List.intercalate [Separator]
            (plains ++ List.replicate k [Dot, Dot]).reverse) from by simp [splitSep]]
      rw [List.foldl_cons, hsplit]
      exact hfold
    | false =>
      simp only [cleanRender, Bool.false_eq_true, if_false, if_neg hbody]
      rw [hsplit]
      exact hfold

theorem CleanStack_nil (rooted : Bool) : CleanStack rooted [] :=
  ⟨0, [], rfl, (fun _ => rfl), (fun _ h => by cases h)⟩

theorem CleanStack_step (rooted : Bool) (out : List Bytes) (e : Bytes)
    (h : CleanStack rooted out) (hsep : Separator ∉ e) :
    CleanStack rooted (cleanStep rooted out e) := by
  obtain ⟨k, plains, rfl, hk, hp⟩ := h
  unfold cleanStep
  by_cases h1 : e = []
  · rw [if_pos h1]
    exact ⟨k, plains, rfl, hk, hp⟩
  rw [if_neg h1]
  by_cases h2 : e = [Dot]
  · rw [if_pos h2]
    exact ⟨k, plains, rfl, hk, hp⟩
  rw [if_neg h2]
  by_cases h3 : e = [Dot, Dot]
  · rw [if_pos h3]
    cases plains with
    | nil =>
      cases k with
      | zero =>
        cases rooted with
        | true => exact CleanStack_nil true
        | false =>
          exact ⟨1, [], by rw [h3]; rfl, (fun h => by cases h), (fun _ h => by cases h)⟩
      | succ k =>
        cases rooted with
        | true => exact absurd (hk rfl) (Nat.succ_ne_zero k)
        | false =>
          refine ⟨k + 2, [], ?_, (fun h => by cases h), (fun _ h => by cases h)⟩
          rw [h3]
          simp [List.replicate_succ]
    | cons top below =>
      have htop : top ≠ [Dot, Dot] := (hp top (List.mem_cons_self _ _)).2.2.2
      simp only [List.cons_append, if_neg htop]
      exact ⟨k, below, rfl, hk, fun x hx => hp x (List.mem_cons_of_mem _ hx)⟩
  · rw [if_neg h3]
    refine ⟨k, e :: plains, rfl, hk, ?_⟩
    intro x hx
    rcases List.mem_cons.mp hx with rfl | hx
    · exact ⟨h1, hsep, h2, h3⟩
    · exact hp x hx

theorem CleanStack_foldl (rooted : Bool) (L : List Bytes) (hL : ∀ e ∈ L, Separator ∉ e)
    (out : List Bytes) (h : CleanStack rooted out) :
    CleanStack rooted (L.foldl (cleanStep rooted) out) := by
  induction L generalizing out with
  | nil => exact h
  | cons x L ih =>
    rw [List.foldl_cons]
    exact ih (fun e he => hL e (List.mem_cons_of_mem _ he)) _
      (CleanStack_step rooted out x h (hL x (List.mem_cons_self _ _)))

theorem intercalate_reverse_cons (out : List Bytes) (e : Bytes) (hout : out ≠ []) :
    List.intercalate [Separator] (e :: out).reverse =
      List.intercalate [Separator] out.reverse ++ Separator :: e := by
  rw [List.reverse_cons]
  exact intercalate_append_singleton _ e (fun h0 => hout (List.reverse_eq_nil_iff.mp h0))

/-- The first byte of a rendered relative path is not the separator. -/
theorem cleanRender_head (rooted : Bool) (out : List Bytes) (h : CleanStack rooted out) :
    (cleanRender rooted out).head? = some Separator ↔ rooted = true := by
  cases rooted with
  | true => simp [cleanRender]
  | false =>
    simp only [cleanRender, Bool.false_eq_true, if_false, iff_false]
    split
    · decide
    · rename_i hbody
      obtain ⟨k, plains, rfl, _, hp⟩ := h
      -- the first element of the reversed stack is not empty and has no separator
      rcases hrev : (plains ++ List.replicate k [Dot, Dot]).reverse with _ | ⟨x, L⟩
      · rw [hrev] at hbody
        exact absurd rfl hbody
      · have hx : x ∈ plains ++ List.replicate k [Dot, Dot] := by
          rw [← List.mem_reverse, hrev]
          exact List.mem_cons_self _ _
        have hxne : x ≠ [] ∧ Separator ∉ x := by
          rcases List.mem_append.mp hx with h1 | h1
          · exact ⟨(hp x h1).1, (hp x h1).2.1⟩
          · rw [List.eq_of_mem_replicate h1]
            decide
        rcases x with _ | ⟨b, x⟩
        · exact absurd rfl hxne.1
        · have hb : b ≠ Separator := fun hb => hxne.2 (hb ▸ List.mem_cons_self _ _)
          cases L with
          | nil =>
            rw [intercalate_singleton]
            simp [hb]
          | cons y L =>
            rw [intercalate_cons_cons]
            simp [hb]

/-- Cleaning "cleaned path, separator, ordinary element" pushes the element on the stack. -/
theorem Clean_render_append (rooted : Bool) (out : List Bytes) (e : Bytes)
    (h : CleanStack rooted out) (he : PlainName e) :
    Clean (cleanRender rooted out ++ Separator :: e) = cleanRender rooted (e :: out) := by
  have hne : cleanRender rooted out ++ Separator :: e ≠ [] := by simp
  have hhead : decide ((cleanRender rooted out ++ Separator :: e).head? = some Separator) =
      rooted := by
    have h1 := cleanRender_head rooted out h
    have h2 : cleanRender rooted out ≠ [] := by
      unfold cleanRender
      cases rooted with
      | true => simp
      | false =>
        simp only [Bool.false_eq_true, if_false]
        split
        · simp
        · assumption
    have h3 : (cleanRender rooted out ++ Separator :: e).head? =
        (cleanRender rooted out).head? := by
      rcases hc : cleanRender rooted out with _ | ⟨b, t⟩
      · exact absurd hc h2
      · rfl
    rw [h3]
    cases rooted with
    | true => exact decide_eq_true (h1.mpr rfl)
    | false =>
      apply decide_eq_false
      intro hh
      exact Bool.false_ne_true (h1.mp hh)
  rw [Clean_eq_render _ hne, hhead, splitSep_append_sep, List.foldl_append,
    foldl_cleanStep_render rooted out h, splitSep_of_no_sep e he.2.1, List.foldl_cons,
    List.foldl_nil, cleanStep_plain rooted out e he]

theorem CleanStack_body_ne_nil (rooted : Bool) (out : List Bytes) (h : CleanStack rooted out)
    (hout : out ≠ []) : List.intercalate [Separator] out.reverse ≠ [] := by
  obtain ⟨k, plains, rfl, _, hp⟩ := h
  have hsepfree : ∀ e ∈ (plains ++ List.replicate k [Dot, Dot]).reverse, Separator ∉ e := by
    intro e he
    rw [List.mem_reverse, List.mem_append] at he
    rcases he with he | he
    · exact (hp e he).2.1
    · rw [List.eq_of_mem_replicate he]
      decide
  have hrev : (plains ++ List.replicate k [Dot, Dot]).reverse ≠ [] :=
    fun h0 => hout (List.reverse_eq_nil_iff.mp h0)
  have hsplit := splitSep_intercalate _ hrev hsepfree
  intro h0
  rw [h0] at hsplit
  have hl : (plains ++ List.replicate k [Dot, Dot]).reverse = [[]] := hsplit.symm
  have hmem : ([] : Bytes) ∈ plains ++ List.replicate k [Dot, Dot] := by
    rw [← List.mem_reverse, hl]
    exact List.mem_singleton.mpr rfl
  rcases List.mem_append.mp hmem with h1 | h1
  · exact (hp _ h1).1 rfl
  · have := List.eq_of_mem_replicate h1
    cases this

theorem Clean_ne_nil (p : Bytes) : Clean p ≠ [] := by
  unfold Clean
  split
  · simp
  · simp only []
    split
    · simp
    · split
      · simp
      · assumption

theorem Clean_plain (e : Bytes) (he : PlainName e) : Clean e = e := by
  have hhead : decide (e.head? = some Separator) = false := by
    apply decide_eq_false
    rcases e with _ | ⟨b, t⟩
    · simp
    · intro hh
      simp only [List.head?_cons, Option.some.injEq] at hh
      exact he.2.1 (hh ▸ List.mem_cons_self _ _)
  rw [Clean_eq_render e he.1, hhead, splitSep_of_no_sep e he.2.1, List.foldl_cons,
    List.foldl_nil, cleanStep_plain false [] e he]
  simp only [cleanRender, Bool.false_eq_true, if_false, List.reverse_singleton,
    intercalate_singleton, if_neg he.1]

/-- Appending an ordinary element to a cleaned path and cleaning again: the element ends up
directly under the cleaned path. -/
theorem Clean_clean_append (q e : Bytes) (hq : q ≠ []) (he : PlainName e) :
    Clean (Clean q ++ Separator :: e) = Clean q ++ Separator :: e ∨
    (Clean q = [Separator] ∧ Clean (Clean q ++ Separator :: e) = Separator :: e) ∨
    (Clean q = [Dot] ∧ Clean (Clean q ++ Separator :: e) = e) := by
  have hstack : CleanStack (decide (q.head? = some Separator))
      ((splitSep q).foldl (cleanStep (decide (q.head? = some Separator))) []) :=
    CleanStack_foldl _ _ (splitSep_no_sep q) [] (CleanStack_nil _)
  rw [Clean_eq_render q hq]
  generalize decide (q.head? = some Separator) = rooted at hstack ⊢
  generalize (splitSep q).foldl (cleanStep rooted) [] = out at hstack ⊢
  rw [Clean_render_append rooted out e hstack he]
  by_cases hout : out = []
  · subst hout
    cases rooted with
    | true =>
      right; left
      refine ⟨rfl, ?_⟩
      simp only [cleanRender, if_true, List.reverse_singleton, intercalate_singleton]
    | false =>
      right; right
      refine ⟨rfl, ?_⟩
      simp only [cleanRender, Bool.false_eq_true, if_false, List.reverse_singleton,
        intercalate_singleton, if_neg he.1]
  · left
    have hbody := CleanStack_body_ne_nil rooted out hstack hout
    have hcons := intercalate_reverse_cons out e hout
    cases rooted with
    | true =>
      simp only [cleanRender, if_true, hcons, List.cons_append]
    | false =>
      simp only [cleanRender, Bool.false_eq_true, if_false, hcons, if_neg hbody]
      rw [if_neg (by simp)]

/-- The output path of the handlers for a file name that is one ordinary path element: the
file name directly under `dir = filepath.Join(path, ext)`. -/
theorem Join_join_plain (path ext name : Bytes) (hname : PlainName name) :
    Join (Join path ext) name = Join path ext ++ Separator :: name ∨
    (Join path ext = [Separator] ∧ Join (Join path ext) name = Separator :: name) ∨
    ((Join path ext = [] ∨ Join path ext = [Dot]) ∧ Join (Join path ext) name = name) := by
  have key : ∀ q : Bytes, q ≠ [] →
      Join (Clean q) name = Clean q ++ Separator :: name ∨
      (Clean q = [Separator] ∧ Join (Clean q) name = Separator :: name) ∨
      ((Clean q = [] ∨ Clean q = [Dot]) ∧ Join (Clean q) name = name) := by
    intro q hq
    have hj : Join (Clean q) name = Clean (Clean q ++ Separator :: name) := by
      simp only [Join, if_pos (Clean_ne_nil q), List.append_assoc, List.singleton_append]
    rw [hj]
    rcases Clean_clean_append q name hq hname with h | ⟨h1, h2⟩ | ⟨h1, h2⟩
    · exact Or.inl h
    · exact Or.inr (Or.inl ⟨h1, h2⟩)
    · exact Or.inr (Or.inr ⟨Or.inr h1, h2⟩)
  by_cases hp : path = []
  · by_cases hx : ext = []
    · have hdir : Join path ext = [] := by simp [Join, hp, hx]
      right; right
      refine ⟨Or.inl hdir, ?_⟩
      rw [hdir]
      simp only [Join, ne_eq, not_true_eq_false, if_false, if_pos hname.1]
      exact Clean_plain name hname
    · have hdir : Join path ext = Clean ext := by simp [Join, hp, hx]
      rw [hdir]
      exact key ext hx
  · have hdir : Join path ext = Clean (path ++ Separator :: ext) := by
      simp [Join, hp]
    rw [hdir]
    exact key _ (by simp)

/-- Storage of a plain name: when the file name of a frame is a single ordinary path
element (not empty, without a separator, neither `.` nor `..`), as the names the client
sends are, the output path `filepath.Join(dir, fileName)` for the classified directory
`dir = filepath.Join(path, ext)` is the entry `fileName` directly inside `dir`: it is
`dir/fileName`, or `/fileName` when `dir` is the root, or `fileName` when `dir` is empty or
`.`; and a handler that returns `MsgSuccess` for the frame has stored the payload at that
path. -/
theorem plain_name_stored_inside_dir (cfg : ConnConfig) (msg : FileMessage)
    (hplain : PlainName msg.FileName) :
    (Join (Join (GetFileType cfg msg.FileName).2.1 (GetFileType cfg msg.FileName).1)
        msg.FileName =
        Join (GetFileType cfg msg.FileName).2.1 (GetFileType cfg msg.FileName).1 ++
          Separator :: msg.FileName ∨
      (Join (GetFileType cfg msg.FileName).2.1 (GetFileType cfg msg.FileName).1 =
          [Separator] ∧
        Join (Join (GetFileType cfg msg.FileName).2.1 (GetFileType cfg msg.FileName).1)
          msg.FileName = Separator :: msg.FileName) ∨
      ((Join (GetFileType cfg msg.FileName).2.1 (GetFileType cfg msg.FileName).1 = [] ∨
          Join (GetFileType cfg msg.FileName).2.1 (GetFileType cfg msg.FileName).1 = [Dot]) ∧
        Join (Join (GetFileType cfg msg.FileName).2.1 (GetFileType cfg msg.FileName).1)
          msg.FileName = msg.FileName)) ∧
    (∀ (conn conn' : Conn) (fs : FS), readMessage conn = (Except.ok msg, conn') →
      (handleTCPClient cfg conn fs).1 = MsgSuccess →
      (handleTCPClient cfg conn fs).2.2.read
        (Join (Join (GetFileType cfg msg.FileName).2.1 (GetFileType cfg msg.FileName).1)
          msg.FileName) = some msg.Data) ∧
    (∀ (chunk : Nat) (conn conn' : UDPConn) (fs : FS) (n : Nat) (addr : Option UDPAddr) r,
      readUDPMessage chunk conn = some (⟨n, addr, Except.ok msg⟩, conn') →
      handleUDPClient cfg chunk conn fs = some r → r.1.1 = MsgSuccess →
      r.2.2.read
        (Join (Join (GetFileType cfg msg.FileName).2.1 (GetFileType cfg msg.FileName).1)
          msg.FileName) = some msg.Data) := by
  refine ⟨Join_join_plain _ _ _ hplain, ?_, ?_⟩
  · intro conn conn' fs hread hs
    rcases handleTCPClient_decoded cfg conn conn' fs msg hread with
      (⟨h1, _⟩ | ⟨h1, _, _⟩) | ⟨_, _, _, hf⟩
    · rw [h1] at hs
      exact absurd hs.symm MsgSuccess_ne_MsgFailure
    · rw [h1] at hs
      exact absurd hs.symm MsgSuccess_ne_MsgFailure
    · simp [FS.read, hf]
  · intro chunk conn conn' fs n addr r hread hr hs
    obtain ⟨status, fs', hr', hcases⟩ :=
      handleUDPClient_decoded cfg chunk conn conn' fs n addr msg hread
    rw [hr'] at hr
    cases hr
    rcases hcases with (⟨h1, _⟩ | ⟨h1, _, _⟩) | ⟨_, _, _, hf⟩
    · rw [h1] at hs
      exact absurd hs.symm MsgSuccess_ne_MsgFailure
    · rw [h1] at hs
      exact absurd hs.symm MsgSuccess_ne_MsgFailure
    · simp [FS.read, hf]

/-! ## Claims -/

/-- C1. Stream round trip: when the bytes that `sendTCPMessage` wrote on a fresh accepting
connection arrive, followed by any further bytes `rest`, at an open server connection,
`readMessage` succeeds and returns a frame with the same `FileName`, `Data` and `Hash`; it
consumes exactly the `41 + n + m` bytes of the frame and leaves `rest` unread. -/
theorem stream_round_trip (client server : Conn) (msg : FileMessage) (rest : Bytes)
    (hopen : client.closed = false) (hquota : client.writeQuota = none)
    (hfresh : client.written = [])
    (hn : msg.FileName.length < 2 ^ 32) (hm : msg.Data.length < 2 ^ 32)
    (hsrv : server.closed = false)
    (hpipe : server.incoming = (sendTCPMessage client msg).2.bytesWritten ++ rest) :
    (sendTCPMessage client msg).1 = none ∧
    readMessage server = (Except.ok msg, { server with incoming := rest }) ∧
    (sendTCPMessage client msg).2.bytesWritten.length =
      41 + msg.FileName.length + msg.Data.length ∧
    (readMessage server).2.incoming = rest := by
  rw [sendTCPMessage_accepting client msg hopen hquota, uint32_of_lt _ hn,
    uint32_of_lt _ hm] at hpipe ⊢
  have hh := msg.Hash.property
  have hin : server.incoming = [0] ++ (PutUint32 msg.FileName.length ++ (msg.FileName ++
      (PutUint32 msg.Data.length ++ (msg.Data ++ (msg.Hash.val ++ rest))))) := by
    rw [hpipe]
    simp [Conn.bytesWritten, hfresh]
  have hr := readMessage_frame server msg rest hsrv hn hm hin
  refine ⟨rfl, hr, ?_, ?_⟩
  · simp [Conn.bytesWritten, hfresh, PutUint32_length, hh]
    omega
  · rw [hr]

/-- Witness of C1: a three-byte file named `a.txt`, followed on the wire by two more bytes. -/
theorem stream_round_trip_witness :
    readMessage (Conn.fresh ((sendTCPMessage (Conn.fresh [])
        ⟨goStr "a.txt", [1, 2, 3], Hash32.zero⟩).2.bytesWritten ++ [7, 9])) =
      (Except.ok ⟨goStr "a.txt", [1, 2, 3], Hash32.zero⟩, Conn.fresh [7, 9]) :=
  (stream_round_trip (Conn.fresh []) (Conn.fresh _) ⟨goStr "a.txt", [1, 2, 3], Hash32.zero⟩
    [7, 9] rfl rfl rfl (by decide) (by decide) rfl rfl).2.1

/-- C2. Wire layout of the stream sender: on a connection that accepts every write, for a
frame whose file name has `n < 2^32` bytes and whose payload has `m < 2^32` bytes,
`sendTCPMessage` returns no error, performs exactly the six writes start marker, name
length, name, payload length, payload, digest, and the bytes written, in write order, are
`[0x00] ++ bigEndian32 n ++ fileName ++ bigEndian32 m ++ payload ++ digest`, which is
`41 + n + m` bytes with nothing in between. -/
theorem sendTCPMessage_wire_layout (conn : Conn) (msg : FileMessage)
    (hopen : conn.closed = false) (hquota : conn.writeQuota = none)
    (hn : msg.FileName.length < 2 ^ 32) (hm : msg.Data.length < 2 ^ 32) :
    (sendTCPMessage conn msg).1 = none ∧
    (sendTCPMessage conn msg).2.written = conn.written ++
      [[0], bigEndian32 msg.FileName.length, msg.FileName, bigEndian32 msg.Data.length,
       msg.Data, msg.Hash.val] ∧
    (sendTCPMessage conn msg).2.bytesWritten = conn.bytesWritten ++
      ([0] ++ bigEndian32 msg.FileName.length ++ msg.FileName ++
        bigEndian32 msg.Data.length ++ msg.Data ++ msg.Hash.val) ∧
    (sendTCPMessage conn msg).2.bytesWritten.length =
      conn.bytesWritten.length + (41 + msg.FileName.length + msg.Data.length) := by
  rw [sendTCPMessage_accepting conn msg hopen hquota, uint32_of_lt _ hn, uint32_of_lt _ hm,
    PutUint32_eq_bigEndian32, PutUint32_eq_bigEndian32]
  have hh := msg.Hash.property
  refine ⟨rfl, rfl, ?_, ?_⟩
  · simp [Conn.bytesWritten]
  · simp [Conn.bytesWritten, bigEndian32, hh]
    omega

/-- Witness of C2: the frame of an empty file named `a.txt` on a fresh connection. -/
theorem sendTCPMessage_wire_layout_witness :
    (sendTCPMessage (Conn.fresh []) ⟨goStr "a.txt", [], Hash32.zero⟩).2.bytesWritten =
      [0] ++ bigEndian32 5 ++ goStr "a.txt" ++ bigEndian32 0 ++ [] ++ Hash32.zero.val :=
  (sendTCPMessage_wire_layout (Conn.fresh []) ⟨goStr "a.txt", [], Hash32.zero⟩ rfl rfl
    (by decide) (by decide)).2.2.1

/-- C3. Chunking of the datagram sender: on a socket that accepts every write,
`sendUDPMessage` returns no error and sends, between the total-length datagram and the
digest datagram, exactly `ceil(L / 1024)` chunk datagrams for a payload of `L` bytes; the
chunk lengths sum to `L`, every chunk but the last has 1024 bytes, the last has `L mod 1024`
bytes (1024 when `L` is a non-zero multiple of 1024), and the chunks concatenated in
emission order are the payload. -/
theorem sendUDPMessage_chunking (conn : UDPConn) (msg : FileMessage)
    (hquota : conn.writeQuota = none) :
    ∃ (chunks : List Bytes) (conn' : UDPConn),
      sendUDPMessage conn msg = some (none, conn') ∧
      conn'.outbox = conn.outbox ++
        ([[0], PutUint32 (uint32 msg.FileName.length), msg.FileName,
          PutUint32 (uint32 msg.Data.length)] ++ chunks ++ [msg.Hash.val]).map
            (Datagram.mk conn.raddr) ∧
      chunks.length = (msg.Data.length + 1024 - 1) / 1024 ∧
      (chunks.map List.length).sum = msg.Data.length ∧
      (∀ i d, chunks[i]? = some d → i + 1 < chunks.length → d.length = 1024) ∧
      (∀ d, chunks.getLast? = some d →
        d.length = if msg.Data.length % 1024 = 0 then 1024 else msg.Data.length % 1024) ∧
      chunks.flatten = msg.Data := by
  have hc : 0 < 1024 := by decide
  have hlen := chunksOf_length 1024 hc msg.Data
  have hflat := chunksOf_flatten 1024 hc msg.Data
  refine ⟨chunksOf 1024 msg.Data, _, sendUDPMessage_accepting conn msg hquota, rfl, hlen, ?_,
    ?_, ?_, hflat⟩
  · rw [← List.length_flatten, hflat]
  · intro i d hd hi
    rw [chunksOf_getElem? 1024 hc] at hd
    split at hd
    · cases hd
      simp only [List.length_take, List.length_drop]
      omega
    · cases hd
  · intro d hd
    rw [List.getLast?_eq_getElem?, chunksOf_getElem? 1024 hc] at hd
    split at hd
    · cases hd
      simp only [List.length_take, List.length_drop]
      split <;> omega
    · cases hd

/-- Witness of C3: a three-byte payload on a freshly dialled socket. -/
theorem sendUDPMessage_chunking_witness :
    ∃ (chunks : List Bytes) (conn' : UDPConn),
      sendUDPMessage (UDPConn.dial exampleClient exampleServer)
        ⟨goStr "a.txt", [1, 2, 3], Hash32.zero⟩ = some (none, conn') ∧
      conn'.outbox = (UDPConn.dial exampleClient exampleServer).outbox ++
        ([[0], PutUint32 (uint32 (goStr "a.txt").length), goStr "a.txt",
          PutUint32 (uint32 [1, 2, 3].length)] ++ chunks ++ [Hash32.zero.val]).map
            (Datagram.mk exampleServer) ∧
      chunks.length = ([1, 2, 3].length + 1024 - 1) / 1024 ∧
      (chunks.map List.length).sum = [1, 2, 3].length ∧
      (∀ i d, chunks[i]? = some d → i + 1 < chunks.length → d.length = 1024) ∧
      (∀ d, chunks.getLast? = some d →
        d.length = if [1, 2, 3].length % 1024 = 0 then 1024 else [1, 2, 3].length % 1024) ∧
      chunks.flatten = [1, 2, 3] :=
  sendUDPMessage_chunking (UDPConn.dial exampleClient exampleServer)
    ⟨goStr "a.txt", [1, 2, 3], Hash32.zero⟩ rfl

/-- C4, as amended. Datagram round trip: for a frame with lengths below `2^32`, sent by
`sendUDPMessage` on a fresh accepting socket and delivered completely and in order, and for
a receiver chunk size that is positive and either a multiple of the sender's 1024 or at
least the payload length, `readUDPMessage` succeeds, returns the sender's address, the
payload length and a frame with the same `FileName`, `Data` and `Hash`, and leaves the
datagrams that follow in the queue. -/
theorem datagram_round_trip (client : UDPConn) (msg : FileMessage) (chunk : Nat)
    (rest : List Datagram)
    (hquota : client.writeQuota = none) (hfresh : client.outbox = [])
    (hn : msg.FileName.length < 2 ^ 32) (hm : msg.Data.length < 2 ^ 32)
    (hchunk : 0 < chunk) (hal : 1024 ∣ chunk ∨ msg.Data.length ≤ chunk) :
    ∃ client', sendUDPMessage client msg = some (none, client') ∧
      ∀ server : UDPConn, server.inbox = deliver client.laddr client'.outbox ++ rest →
        readUDPMessage chunk server =
          some (⟨msg.Data.length, some client.laddr, Except.ok msg⟩,
            { server with inbox := rest }) := by
  refine ⟨_, sendUDPMessage_accepting client msg hquota, ?_⟩
  intro server hin
  have hh := msg.Hash.property
  have hhne : msg.Hash.val ≠ [] := by
    intro h0
    rw [h0] at hh
    cases hh
  simp only [hfresh, List.nil_append, deliver, uint32_of_lt _ hn, uint32_of_lt _ hm,
    List.map_append, List.map_cons, List.map_nil, List.map_map, List.cons_append,
    List.append_assoc] at hin
  have hmap : (List.map ((fun d => Datagram.mk client.laddr d.payload) ∘ Datagram.mk client.raddr)
      (chunksOf 1024 msg.Data)) = (chunksOf 1024 msg.Data).map (Datagram.mk client.laddr) := by
    apply List.map_congr_left
    intro p _
    rfl
  rw [hmap] at hin
  have r1 : server.ReadFromUDP 1 = (Except.ok ([0], client.laddr), { server with inbox :=
      ⟨client.laddr, PutUint32 msg.FileName.length⟩ :: ⟨client.laddr, msg.FileName⟩ ::
        ⟨client.laddr, PutUint32 msg.Data.length⟩ ::
          ((chunksOf 1024 msg.Data).map (Datagram.mk client.laddr) ++
            ⟨client.laddr, msg.Hash.val⟩ :: rest) }) := by
    simp only [UDPConn.ReadFromUDP, hin]
    rfl
  have r2 := ReadFullUDP_one { server with inbox :=
      ⟨client.laddr, PutUint32 msg.FileName.length⟩ :: ⟨client.laddr, msg.FileName⟩ ::
        ⟨client.laddr, PutUint32 msg.Data.length⟩ ::
          ((chunksOf 1024 msg.Data).map (Datagram.mk client.laddr) ++
            ⟨client.laddr, msg.Hash.val⟩ :: rest) } client.laddr
    (PutUint32 msg.FileName.length) _ (by simp [PutUint32]) rfl
  obtain ⟨c1, r3, r4⟩ := ReadFullUDP_name { server with inbox :=
      ⟨client.laddr, msg.FileName⟩ :: ⟨client.laddr, PutUint32 msg.Data.length⟩ ::
          ((chunksOf 1024 msg.Data).map (Datagram.mk client.laddr) ++
            ⟨client.laddr, msg.Hash.val⟩ :: rest) } client.laddr msg.FileName
    (PutUint32 msg.Data.length) _ (PutUint32_length _) rfl
  have r5 := readChunks_aligned client.laddr msg.Data chunk hchunk hal
    (⟨client.laddr, msg.Hash.val⟩ :: rest) msg.Data.length 0
    { server with inbox := (chunksOf 1024 msg.Data).map (Datagram.mk client.laddr) ++
        (⟨client.laddr, msg.Hash.val⟩ :: rest) }
    (Nat.zero_le _) (Or.inl (Nat.dvd_zero _)) (by omega) rfl
  have r6 := ReadFullUDP_one { server with inbox := ⟨client.laddr, msg.Hash.val⟩ :: rest }
    client.laddr msg.Hash.val rest hhne rfl
  rw [PutUint32_length] at r2
  rw [hh] at r6
  simp only [List.take_zero] at r5
  simp only [readUDPMessage, r1, r2, Uint32_PutUint32 _ hn, r3, r4, Uint32_PutUint32 _ hm, r5,
    r6, Hash32_fill_val]

/-- Witness of C4 as amended: receiver chunk size 2048 against the sender's 1024. -/
theorem datagram_round_trip_witness :
    ∃ client', sendUDPMessage (UDPConn.dial exampleClient exampleServer)
        ⟨goStr "a.txt", [1, 2, 3], Hash32.zero⟩ = some (none, client') ∧
      ∀ server : UDPConn, server.inbox = deliver exampleClient client'.outbox ++ [] →
        readUDPMessage 2048 server =
          some (⟨3, some exampleClient, Except.ok ⟨goStr "a.txt", [1, 2, 3], Hash32.zero⟩⟩,
            { server with inbox := [] }) :=
  datagram_round_trip (UDPConn.dial exampleClient exampleServer)
    ⟨goStr "a.txt", [1, 2, 3], Hash32.zero⟩ 2048 [] rfl rfl (by decide) (by decide)
    (by decide) (Or.inl (by decide))

/-- Counterexample to C4 as stated: receiver chunk size 1 and a two-byte payload. The
sender puts both payload bytes in one datagram; the first one-byte read takes that datagram
and loses its second byte, the second one-byte read takes the first byte of the digest
datagram, and the read of the digest finds the queue empty: `readUDPMessage` returns an
error and no frame. -/
theorem datagram_round_trip_counterexample :
    (sendUDPMessage (UDPConn.dial exampleClient exampleServer)
        ⟨goStr "a.txt", [1, 2], Hash32.zero⟩).map
      (fun r => (r.1, readUDPMessage 1
        (UDPConn.listen exampleServer (deliver exampleClient r.2.outbox)))) =
    some (none, some (⟨2, none, Except.error IOError.EOF⟩, UDPConn.listen exampleServer [])) := by
  decide

/-- C5. Corruption detection: whenever the decoded frame's digest differs from the SHA-256
of its payload, `handleTCPClient` and `handleUDPClient` return `MsgFailure` and the stored
files are unchanged (`CreateFile` is not reached); `MsgSuccess` is returned only for a
decoded frame whose digest is the SHA-256 of the payload; and `CompareHash256` returns an
error exactly when its two arguments differ. -/
theorem corruption_detected (cfg : ConnConfig) :
    (∀ (conn conn' : Conn) (fs : FS) (msg : FileMessage),
        readMessage conn = (Except.ok msg, conn') → msg.Hash ≠ Sum256 msg.Data →
        (handleTCPClient cfg conn fs).1 = MsgFailure ∧
        (handleTCPClient cfg conn fs).2.2.files = fs.files) ∧
    (∀ (chunk : Nat) (conn conn' : UDPConn) (fs : FS) (n : Nat) (addr : Option UDPAddr)
        (msg : FileMessage),
        readUDPMessage chunk conn = some (⟨n, addr, Except.ok msg⟩, conn') →
        msg.Hash ≠ Sum256 msg.Data →
        ∃ r, handleUDPClient cfg chunk conn fs = some r ∧ r.1.1 = MsgFailure ∧
          r.2.2.files = fs.files) ∧
    (∀ (conn : Conn) (fs : FS), (handleTCPClient cfg conn fs).1 = MsgSuccess →
        ∃ msg conn', readMessage conn = (Except.ok msg, conn') ∧ msg.Hash = Sum256 msg.Data) ∧
    (∀ (chunk : Nat) (conn : UDPConn) (fs : FS) r,
        handleUDPClient cfg chunk conn fs = some r → r.1.1 = MsgSuccess →
        ∃ n addr msg conn', readUDPMessage chunk conn = some (⟨n, addr, Except.ok msg⟩, conn') ∧
          msg.Hash = Sum256 msg.Data) ∧
    (∀ h1 h2 : Hash32, CompareHash256 h1 h2 ≠ none ↔ h1 ≠ h2) := by
  refine ⟨?_, ?_, ?_, ?_, ?_⟩
  · intro conn conn' fs msg hread hne
    rcases handleTCPClient_decoded cfg conn conn' fs msg hread with
      (⟨h1, h2⟩ | ⟨_, h2, _⟩) | ⟨_, h2, _⟩
    · exact ⟨h1, h2⟩
    · exact absurd h2 hne
    · exact absurd h2 hne
  · intro chunk conn conn' fs n addr msg hread hne
    obtain ⟨status, fs', hr, hcases⟩ :=
      handleUDPClient_decoded cfg chunk conn conn' fs n addr msg hread
    rcases hcases with (⟨h1, h2⟩ | ⟨_, h2, _⟩) | ⟨_, h2, _⟩
    · exact ⟨_, hr, h1, h2⟩
    · exact absurd h2 hne
    · exact absurd h2 hne
  · intro conn fs hs
    rcases hread : readMessage conn with ⟨_ | msg, conn'⟩
    · rw [handleTCPClient_read_error cfg conn conn' fs _ hread] at hs
      exact absurd hs.symm MsgSuccess_ne_MsgFailure
    · refine ⟨msg, conn', rfl, ?_⟩
      rcases handleTCPClient_decoded cfg conn conn' fs msg hread with
        (⟨h1, _⟩ | ⟨h1, _, _⟩) | ⟨_, h2, _⟩
      · rw [h1] at hs
        exact absurd hs.symm MsgSuccess_ne_MsgFailure
      · rw [h1] at hs
        exact absurd hs.symm MsgSuccess_ne_MsgFailure
      · exact h2
  · intro chunk conn fs r hr hs
    rcases hread : readUDPMessage chunk conn with _ | ⟨⟨n, addr, _ | msg⟩, conn'⟩
    · simp [handleUDPClient, hread] at hr
    · rw [handleUDPClient_read_error cfg chunk conn conn' fs n addr _ hread] at hr
      cases hr
      exact absurd hs.symm MsgSuccess_ne_MsgFailure
    · refine ⟨n, addr, msg, conn', rfl, ?_⟩
      obtain ⟨status, fs', hr', hcases⟩ :=
        handleUDPClient_decoded cfg chunk conn conn' fs n addr msg hread
      rw [hr'] at hr
      cases hr
      rcases hcases with (⟨h1, _⟩ | ⟨h1, _, _⟩) | ⟨_, h2, _⟩
      · rw [h1] at hs
        exact absurd hs.symm MsgSuccess_ne_MsgFailure
      · rw [h1] at hs
        exact absurd hs.symm MsgSuccess_ne_MsgFailure
      · exact h2
  · intro h1 h2
    rw [Ne, CompareHash256_eq_none]

/-- Witness of C5: a one-byte file sent with an all-zero digest is refused and nothing is
stored. -/
theorem corruption_detected_witness :
    (handleTCPClient GlobalConfig (Conn.fresh ((sendTCPMessage (Conn.fresh [])
        ⟨goStr "a.txt", [1], Hash32.zero⟩).2.bytesWritten)) FS.empty).1 = MsgFailure ∧
    (handleTCPClient GlobalConfig (Conn.fresh ((sendTCPMessage (Conn.fresh [])
        ⟨goStr "a.txt", [1], Hash32.zero⟩).2.bytesWritten)) FS.empty).2.2.files =
      FS.empty.files :=
  (corruption_detected GlobalConfig).1 _ (Conn.fresh []) FS.empty
    ⟨goStr "a.txt", [1], Hash32.zero⟩ (by decide) (by decide)

/-- C6, evaluated at the failing input: the file name `README` has no extension, the empty
extension is in none of the four default tables, and yet `GetFileType` reports it valid
with the image path. -/
theorem GetFileType_no_extension :
    Ext (goStr "README") = [] ∧
    [] ∉ GlobalConfig.ImageExtensions ∧ [] ∉ GlobalConfig.AudioExtensions ∧
    [] ∉ GlobalConfig.VideoExtensions ∧ [] ∉ GlobalConfig.TextExtensions ∧
    GetFileType GlobalConfig (goStr "README") = ([], goStr "Multimedia/Images", true) := by
  decide

/-- C7, evaluated at the failing input: the start marker arrives from the client, then two
of the four bytes of the name length, and the read fails; `readUDPMessage` returns the error
with a `nil` address and `HandleUDP` returns without having sent any datagram. -/
theorem HandleUDP_no_status_on_short_read :
    (shortReadSocket.ReadFromUDP 1).1 = Except.ok ([0], exampleClient) ∧
    readUDPMessage chunkSize shortReadSocket =
      some (⟨0, none, Except.error IOError.ErrUnexpectedEOF⟩, UDPConn.listen exampleServer []) ∧
    HandleUDP GlobalConfig chunkSize shortReadSocket FS.empty =
      some (UDPConn.listen exampleServer [], FS.empty) ∧
    (UDPConn.listen exampleServer []).outbox = [] := by
  decide

/-- C8, as amended. Persist path: whenever a handler returns `MsgSuccess`, the frame was
decoded, the classifier accepted its file name with category path `path`, and the payload
is stored at exactly `filepath.Join(filepath.Join(path, ext), fileName)`, where `ext` is
the file name's extension as the classifier returns it. -/
theorem persist_path (cfg : ConnConfig) :
    (∀ (conn : Conn) (fs : FS), (handleTCPClient cfg conn fs).1 = MsgSuccess →
      ∃ msg conn' path, readMessage conn = (Except.ok msg, conn') ∧
        GetFileType cfg msg.FileName = (Ext msg.FileName, path, true) ∧
        (handleTCPClient cfg conn fs).2.2.files =
          (Join (Join path (Ext msg.FileName)) msg.FileName, msg.Data) ::
            fs.files.filter (fun f => f.1 ≠ Join (Join path (Ext msg.FileName)) msg.FileName) ∧
        (handleTCPClient cfg conn fs).2.2.read
          (Join (Join path (Ext msg.FileName)) msg.FileName) = some msg.Data) ∧
    (∀ (chunk : Nat) (conn : UDPConn) (fs : FS) r,
      handleUDPClient cfg chunk conn fs = some r → r.1.1 = MsgSuccess →
      ∃ n addr msg conn' path,
        readUDPMessage chunk conn = some (⟨n, addr, Except.ok msg⟩, conn') ∧
        GetFileType cfg msg.FileName = (Ext msg.FileName, path, true) ∧
        r.2.2.files =
          (Join (Join path (Ext msg.FileName)) msg.FileName, msg.Data) ::
            fs.files.filter (fun f => f.1 ≠ Join (Join path (Ext msg.FileName)) msg.FileName) ∧
        r.2.2.read (Join (Join path (Ext msg.FileName)) msg.FileName) = some msg.Data) := by
  have hread_files : ∀ (fs' : FS) (path data : Bytes) (others : List (Bytes × Bytes)),
      fs'.files = (path, data) :: others → fs'.read path = some data := by
    intro fs' path data others h
    simp [FS.read, h]
  refine ⟨?_, ?_⟩
  · intro conn fs hs
    rcases hread : readMessage conn with ⟨_ | msg, conn'⟩
    · rw [handleTCPClient_read_error cfg conn conn' fs _ hread] at hs
      exact absurd hs.symm MsgSuccess_ne_MsgFailure
    · rcases handleTCPClient_decoded cfg conn conn' fs msg hread with
        (⟨h1, _⟩ | ⟨h1, _, _⟩) | ⟨_, _, hv, hf⟩
      · rw [h1] at hs
        exact absurd hs.symm MsgSuccess_ne_MsgFailure
      · rw [h1] at hs
        exact absurd hs.symm MsgSuccess_ne_MsgFailure
      · rw [GetFileType_fst] at hf
        exact ⟨msg, conn', _, rfl, GetFileType_eq cfg _ hv, hf, hread_files _ _ _ _ hf⟩
  · intro chunk conn fs r hr hs
    rcases hread : readUDPMessage chunk conn with _ | ⟨⟨n, addr, _ | msg⟩, conn'⟩
    · simp [handleUDPClient, hread] at hr
    · rw [handleUDPClient_read_error cfg chunk conn conn' fs n addr _ hread] at hr
      cases hr
      exact absurd hs.symm MsgSuccess_ne_MsgFailure
    · obtain ⟨status, fs', hr', hcases⟩ :=
        handleUDPClient_decoded cfg chunk conn conn' fs n addr msg hread
      rw [hr'] at hr
      cases hr
      rcases hcases with (⟨h1, _⟩ | ⟨h1, _, _⟩) | ⟨_, _, hv, hf⟩
      · rw [h1] at hs
        exact absurd hs.symm MsgSuccess_ne_MsgFailure
      · rw [h1] at hs
        exact absurd hs.symm MsgSuccess_ne_MsgFailure
      · rw [GetFileType_fst] at hf
        exact ⟨n, addr, msg, conn', _, rfl, GetFileType_eq cfg _ hv, hf,
          hread_files _ _ _ _ hf⟩

/-- Witness of C8 as amended: the empty file `empty.txt` over the stream channel. -/
theorem persist_path_witness :
    ∃ msg conn' path, readMessage (Conn.fresh emptyTxtStream) = (Except.ok msg, conn') ∧
      GetFileType GlobalConfig msg.FileName = (Ext msg.FileName, path, true) ∧
      (handleTCPClient GlobalConfig (Conn.fresh emptyTxtStream) FS.empty).2.2.files =
        (Join (Join path (Ext msg.FileName)) msg.FileName, msg.Data) ::
          FS.empty.files.filter
            (fun f => f.1 ≠ Join (Join path (Ext msg.FileName)) msg.FileName) ∧
      (handleTCPClient GlobalConfig (Conn.fresh emptyTxtStream) FS.empty).2.2.read
        (Join (Join path (Ext msg.FileName)) msg.FileName) = some msg.Data :=
  (persist_path GlobalConfig).1 (Conn.fresh emptyTxtStream) FS.empty (by decide)

/-- Counterexample to C8 as stated: with the default configuration the empty file
`empty.txt`, sent over the stream channel with its SHA-256 digest, is accepted and stored
with zero length at `Multimedia/Texts/.txt/empty.txt`; nothing is stored at
`Multimedia/Texts/empty.txt`. -/
theorem persist_path_counterexample :
    handleTCPClient GlobalConfig (Conn.fresh emptyTxtStream) FS.empty =
      (MsgSuccess, Conn.fresh [], emptyTxtStored) ∧
    emptyTxtStored.read (goStr "Multimedia/Texts/.txt/empty.txt") = some [] ∧
    emptyTxtStored.read (goStr "Multimedia/Texts/empty.txt") = none := by
  decide

/-- C9. Short read is fatal: when the server connection delivers a strict prefix of the
stream encoding of a frame (lengths below `2^32`) and then ends, `readMessage` returns an
error, `handleTCPClient` returns `MsgFailure`, and the file system is left exactly as it
was: no directory is made, no file is written, nothing is logged. -/
theorem short_read_fatal (cfg : ConnConfig) (client server : Conn) (msg : FileMessage)
    (p : Bytes) (fs : FS)
    (hopen : client.closed = false) (hquota : client.writeQuota = none)
    (hfresh : client.written = [])
    (hn : msg.FileName.length < 2 ^ 32) (hm : msg.Data.length < 2 ^ 32)
    (hp : p <+: (sendTCPMessage client msg).2.bytesWritten)
    (hlt : p.length < (sendTCPMessage client msg).2.bytesWritten.length)
    (hin : server.incoming = p) :
    (∃ err conn', readMessage server = (Except.error err, conn')) ∧
    (handleTCPClient cfg server fs).1 = MsgFailure ∧
    (handleTCPClient cfg server fs).2.2 = fs := by
  rw [sendTCPMessage_accepting client msg hopen hquota, uint32_of_lt _ hn,
    uint32_of_lt _ hm] at hp hlt
  have hh := msg.Hash.property
  simp only [Conn.bytesWritten, hfresh, List.nil_append, List.flatten_cons, List.flatten_nil,
    List.append_nil] at hp hlt
  have hlt2 : p.length < 41 + msg.FileName.length + msg.Data.length := by
    simp only [List.length_append, PutUint32_length, List.length_singleton, hh] at hlt
    omega
  obtain ⟨err, conn', hread⟩ := readMessage_strict_prefix msg p server hn hm hp hlt2 hin
  refine ⟨⟨err, conn', hread⟩, ?_, ?_⟩
  · rw [handleTCPClient_read_error cfg server conn' fs err hread]
  · rw [handleTCPClient_read_error cfg server conn' fs err hread]

/-- Witness of C9: the first six bytes of the encoding of a three-byte file `a.txt`. -/
theorem short_read_fatal_witness :
    (∃ err conn', readMessage (Conn.fresh [0, 0, 0, 0, 5, 97]) = (Except.error err, conn')) ∧
    (handleTCPClient GlobalConfig (Conn.fresh [0, 0, 0, 0, 5, 97]) FS.empty).1 = MsgFailure ∧
    (handleTCPClient GlobalConfig (Conn.fresh [0, 0, 0, 0, 5, 97]) FS.empty).2.2 = FS.empty :=
  short_read_fatal GlobalConfig (Conn.fresh []) (Conn.fresh [0, 0, 0, 0, 5, 97])
    ⟨goStr "a.txt", [1, 2, 3], Hash32.zero⟩ [0, 0, 0, 0, 5, 97] FS.empty rfl rfl rfl
    (by decide) (by decide) (by decide) (by decide) rfl

/-- C10, evaluated at the failing input: the server handles a complete, valid transfer of
`empty.txt`, and when `HandleTCP` returns the connection is still open (`HandleTCP` never
closes it, `HandleTCP_closed`). -/
theorem HandleTCP_connection_left_open :
    (HandleTCP GlobalConfig (Conn.fresh emptyTxtStream) FS.empty).1.closed = false := by
  rw [HandleTCP_closed]
  rfl

/-- C11, as amended. End-to-end scenario 2: a frame with a 5000-byte payload, sent by
`sendUDPMessage` on a fresh accepting socket and delivered completely and in order, is read
by `readUDPMessage` with chunk size 1024 in exactly 5 chunk reads, of sizes 1024, 1024,
1024, 1024 and 904; the loop reassembles the 5000 bytes of the payload and the returned
byte count is 5000. -/
theorem scenario_5000_chunk_reads (client : UDPConn) (msg : FileMessage)
    (rest : List Datagram)
    (hquota : client.writeQuota = none) (hfresh : client.outbox = [])
    (hn : msg.FileName.length < 2 ^ 32) (hd : msg.Data.length = 5000) :
    ∃ client', sendUDPMessage client msg = some (none, client') ∧
      ∀ server : UDPConn, server.inbox = deliver client.laddr client'.outbox ++ rest →
        readUDPMessageTrace 1024 server =
          some (⟨5000, some client.laddr, Except.ok msg⟩, { server with inbox := rest },
            [1024, 1024, 1024, 1024, 904]) ∧
        readUDPMessage 1024 server =
          some (⟨5000, some client.laddr, Except.ok msg⟩, { server with inbox := rest }) := by
  have hm : msg.Data.length < 2 ^ 32 := by
    rw [hd]
    decide
  obtain ⟨client', hsend, hdel⟩ := deliver_sendUDPMessage client msg hquota hfresh hn hm
  refine ⟨client', hsend, ?_⟩
  intro server hin
  rw [hdel] at hin
  have hframe := readUDPMessageTrace_frame client.laddr msg 1024 rest server hn hm
    (by decide) (Or.inl (dvd_refl _)) (by simpa using hin)
  have hreads : chunkReads 1024 5000 = [1024, 1024, 1024, 1024, 904] := by decide
  rw [hd, hreads] at hframe
  refine ⟨hframe, ?_⟩
  rw [← readUDPMessageTrace_erase, hframe]
  rfl

/-- Witness of C11 as amended: 5000 bytes of value 7 sent as `photo.png`. -/
theorem scenario_5000_chunk_reads_witness :
    ∃ client', sendUDPMessage (UDPConn.dial exampleClient exampleServer)
        ⟨goStr "photo.png", List.replicate 5000 7, Hash32.zero⟩ = some (none, client') ∧
      ∀ server : UDPConn, server.inbox = deliver exampleClient client'.outbox ++ [] →
        readUDPMessageTrace 1024 server =
          some (⟨5000, some exampleClient,
            Except.ok ⟨goStr "photo.png", List.replicate 5000 7, Hash32.zero⟩⟩,
            { server with inbox := [] }, [1024, 1024, 1024, 1024, 904]) ∧
        readUDPMessage 1024 server =
          some (⟨5000, some exampleClient,
            Except.ok ⟨goStr "photo.png", List.replicate 5000 7, Hash32.zero⟩⟩,
            { server with inbox := [] }) :=
  scenario_5000_chunk_reads (UDPConn.dial exampleClient exampleServer)
    ⟨goStr "photo.png", List.replicate 5000 7, Hash32.zero⟩ [] rfl rfl (by decide)
    (List.length_replicate _ _)

/-- Counterexample to C11 as stated: for 5000 bytes of value 7 sent as `photo.png` the loop
of `readUDPMessage` with chunk size 1024 requests 1024, 1024, 1024, 1024 and 904 bytes, so
its fifth read is not of size 704; five reads of the sizes in the statement would add up to
4800 bytes. -/
theorem scenario_5000_chunk_reads_counterexample :
    (sendUDPMessage (UDPConn.dial exampleClient exampleServer)
        ⟨goStr "photo.png", List.replicate 5000 7, Hash32.zero⟩).map
      (fun r => (r.1, (readUDPMessageTrace 1024
        (UDPConn.listen exampleServer (deliver exampleClient r.2.outbox))).map
          (fun x => (x.1.n, x.2.2)))) =
      some (none, some (5000, [1024, 1024, 1024, 1024, 904])) ∧
    (sendUDPMessage (UDPConn.dial exampleClient exampleServer)
        ⟨goStr "photo.png", List.replicate 5000 7, Hash32.zero⟩).map
      (fun r => (r.1, (readUDPMessageTrace 1024
        (UDPConn.listen exampleServer (deliver exampleClient r.2.outbox))).map
          (fun x => (x.1.n, x.2.2)))) ≠
      some (none, some (5000, [1024, 1024, 1024, 1024, 704])) ∧
    [1024, 1024, 1024, 1024, 704].sum = 4800 := by
  have hlen : (List.replicate 5000 (7 : UInt8)).length = 5000 := List.length_replicate _ _
  obtain ⟨client', hsend, hdel⟩ := deliver_sendUDPMessage
    (UDPConn.dial exampleClient exampleServer)
    ⟨goStr "photo.png", List.replicate 5000 7, Hash32.zero⟩ rfl rfl (by decide)
    (by rw [hlen]; decide)
  have hframe := readUDPMessageTrace_frame exampleClient
    ⟨goStr "photo.png", List.replicate 5000 7, Hash32.zero⟩ 1024 []
    (UDPConn.listen exampleServer (deliver exampleClient client'.outbox))
    (by decide) (by rw [hlen]; decide) (by decide) (Or.inl (dvd_refl _)) hdel
  have hreads : chunkReads 1024 5000 = [1024, 1024, 1024, 1024, 904] := by decide
  rw [hlen, hreads] at hframe
  rw [hsend]
  simp only [Option.map_some', hframe]
  decide

/-- C12, evaluated at the failing input: a configuration file that sets `chunkSize` to 8192.
Function `ReadConfigFile` never assigns the package variable `chunkSize`, whatever the
file; for this file it returns no error and stores 8192 in `GlobalConfig.ChunkSize`, while
`chunkSize` keeps the 1024 of its initialiser. A 1500-byte payload received after that is
read in two chunk reads of 1024 and 476 bytes, where chunk size 8192 makes one read of 1500
bytes. With no configuration file the package variables are unchanged and the chunk size is
1024. -/
theorem configured_chunk_size_not_used :
    (∀ (file : ConfigFile) (localIP : Except IOError Bytes) (g : Globals),
      (ReadConfigFile file localIP g).2.chunkSize = g.chunkSize) ∧
    (ReadConfigFile chunk8192File (Except.ok (goStr "192.168.0.2")) Globals.init).1 = none ∧
    (ReadConfigFile chunk8192File (Except.ok (goStr "192.168.0.2"))
      Globals.init).2.GlobalConfig.ChunkSize = 8192 ∧
    (ReadConfigFile chunk8192File (Except.ok (goStr "192.168.0.2")) Globals.init).2.chunkSize =
      1024 ∧
    (sendUDPMessage (UDPConn.dial exampleClient exampleServer)
        ⟨goStr "a.txt", List.replicate 1500 7, Hash32.zero⟩).map
      (fun r => (r.1, (mainUDPRead chunk8192File (Except.ok (goStr "192.168.0.2"))
        (UDPConn.listen exampleServer (deliver exampleClient r.2.outbox))).map
          (fun x => (x.1.n, x.2.2)))) =
      some (none, some (1500, [1024, 476])) ∧
    (sendUDPMessage (UDPConn.dial exampleClient exampleServer)
        ⟨goStr "a.txt", List.replicate 1500 7, Hash32.zero⟩).map
      (fun r => (r.1, (readUDPMessageTrace 8192
        (UDPConn.listen exampleServer (deliver exampleClient r.2.outbox))).map
          (fun x => (x.1.n, x.2.2)))) =
      some (none, some (1500, [1500])) ∧
    (∀ localIP : Except IOError Bytes,
      ReadConfigFile ConfigFile.absent localIP Globals.init = (none, Globals.init)) ∧
    Globals.init.chunkSize = 1024 := by
  have hlen : (List.replicate 1500 (7 : UInt8)).length = 1500 := List.length_replicate _ _
  obtain ⟨client', hsend, hdel⟩ := deliver_sendUDPMessage
    (UDPConn.dial exampleClient exampleServer)
    ⟨goStr "a.txt", List.replicate 1500 7, Hash32.zero⟩ rfl rfl (by decide)
    (by rw [hlen]; decide)
  have hmain : ∀ conn : UDPConn,
      mainUDPRead chunk8192File (Except.ok (goStr "192.168.0.2")) conn =
        readUDPMessageTrace 1024 conn := fun _ => rfl
  have h1024 := readUDPMessageTrace_frame exampleClient
    ⟨goStr "a.txt", List.replicate 1500 7, Hash32.zero⟩ 1024 []
    (UDPConn.listen exampleServer (deliver exampleClient client'.outbox))
    (by decide) (by rw [hlen]; decide) (by decide) (Or.inl (dvd_refl _)) hdel
  have h8192 := readUDPMessageTrace_frame exampleClient
    ⟨goStr "a.txt", List.replicate 1500 7, Hash32.zero⟩ 8192 []
    (UDPConn.listen exampleServer (deliver exampleClient client'.outbox))
    (by decide) (by rw [hlen]; decide) (by decide) (Or.inl (by decide)) hdel
  have hr1 : chunkReads 1024 1500 = [1024, 476] := by decide
  have hr2 : chunkReads 8192 1500 = [1500] := by decide
  rw [hlen, hr1] at h1024
  rw [hlen, hr2] at h8192
  refine ⟨ReadConfigFile_chunkSize, by decide, by decide, by decide, ?_, ?_, fun _ => rfl,
    by decide⟩
  · rw [hsend]
    simp only [Option.map_some', hmain, h1024]
  · rw [hsend]
    simp only [Option.map_some', h8192]

/-- C14, evaluated at the failing input: the file name `../../x.txt` with the default
configuration. `GetFileType` accepts the name as a text file, the handlers make the
classified directory `Multimedia/Texts/.txt` to hold the file, and the output path
`filepath.Join(dir, fileName)` is `Multimedia/x.txt`, of which neither the classified
directory nor the configured text directory `Multimedia/Texts` is an initial part. The
stream handler and the datagram handler both store the empty file sent under that name at
`Multimedia/x.txt`, nothing inside the directory they made, and return `MsgSuccess`. With
two more parent elements in the name the output path is `../x.txt`. -/
theorem storage_containment_escape :
    GetFileType GlobalConfig (goStr "../../x.txt") =
      (goStr ".txt", goStr "Multimedia/Texts", true) ∧
    Join (goStr "Multimedia/Texts") (goStr ".txt") = goStr "Multimedia/Texts/.txt" ∧
    Join (goStr "Multimedia/Texts/.txt") (goStr "../../x.txt") = goStr "Multimedia/x.txt" ∧
    ¬ (goStr "Multimedia/Texts/.txt" <+: goStr "Multimedia/x.txt") ∧
    ¬ (goStr "Multimedia/Texts" <+: goStr "Multimedia/x.txt") ∧
    handleTCPClient GlobalConfig (Conn.fresh parentNameStream) FS.empty =
      (MsgSuccess, Conn.fresh [], parentNameStored) ∧
    (sendUDPMessage (UDPConn.dial exampleClient exampleServer)
        ⟨goStr "../../x.txt", [], Sum256 []⟩).map
      (fun r => (r.1, handleUDPClient GlobalConfig chunkSize
        (UDPConn.listen exampleServer (deliver exampleClient r.2.outbox)) FS.empty)) =
      some (none, some ((MsgSuccess, some exampleClient), UDPConn.listen exampleServer [],
        parentNameStored)) ∧
    parentNameStored.dirs = [goStr "Multimedia/Texts/.txt"] ∧
    parentNameStored.files = [(goStr "Multimedia/x.txt", [])] ∧
    parentNameStored.read (goStr "Multimedia/x.txt") = some [] ∧
    GetFileType GlobalConfig (goStr "../../../../x.txt") =
      (goStr ".txt", goStr "Multimedia/Texts", true) ∧
    Join (goStr "Multimedia/Texts/.txt") (goStr "../../../../x.txt") = goStr "../x.txt" := by
  refine ⟨by decide, by decide, by decide, by decide, by decide, by decide, by decide, rfl,
    rfl, by decide, by decide, by decide⟩

end FileTransfer
